import Mathlib

/-! The virtual-table adapter of traildb-sqlite3, `sqlite3_traildb.c`.

A shallow embedding of the adapter's entry points.  Pointers to heap objects
are modelled by the value they point to (`Option` for a nullable pointer), C
strings by the list of their characters, and the `uint64_t` counters by
naturals reduced modulo `2^64` at every increment.  The TrailDB library and
the SQLite allocator are external: what the adapter can observe of them is
carried by the records `tdb` and the outcome flags passed to each entry point.
-/

namespace Traildb

/-! ## Status codes -/

/-- Status `SQLITE_OK` of sqlite3.h. -/
def SQLITE_OK : Int := 0
/-- Status `SQLITE_ERROR` of sqlite3.h. -/
def SQLITE_ERROR : Int := 1
/-- Status `SQLITE_NOMEM` of sqlite3.h. -/
def SQLITE_NOMEM : Int := 7

/-- Modulus of the `uint64_t` fields. -/
def U64 : Nat := 2 ^ 64

/-! ## The store as seen through the TrailDB API -/

/-- The `tdb_event` of traildb.h: a timestamp and the item references. -/
structure tdb_event where
  timestamp : Nat
  items : List Nat
  deriving DecidableEq, Repr

/-- An open TrailDB (`tdb*`) as far as the adapter observes it.  The library
is not part of this repository; its calls below follow the spec's account of
the store.  Counts and lengths are naturals: the library bounds the number of
fields and the length of a field name. -/
structure tdb where
  /-- Events of every trail, trails in ordinal order, events in trail order. -/
  trails : List (List tdb_event)
  /-- Raw identifier bytes of the trail with a given ordinal (`tdb_get_uuid`). -/
  uuid : Nat → List Nat
  /-- Names of the fields after the built-in timestamp field, as the
  NUL-terminated buffers `tdb_get_field_name` points to. -/
  ofields : List (List Char)
  /-- Bytes of the value an item resolves to (`tdb_get_item_value`). -/
  item_value : Nat → List Char
  /-- Whether `tdb_get_trail` reports an error for a trail ordinal. -/
  trail_error : Nat → Bool

/-- The store-side cursor `tdb_cursor`: the events of the trail it was last
positioned at that it has not handed out yet. -/
abbrev tdb_cursor := List tdb_event

/-- Modelled from the spec: the TrailDB call `tdb_num_trails`, the number of
trails of the store. -/
def tdb_num_trails (db : tdb) : Nat := db.trails.length

/-- Modelled from the spec: the TrailDB call `tdb_num_events`, the number of
events of all trails together. -/
def tdb_num_events (db : tdb) : Nat := (db.trails.map List.length).sum

/-- Modelled from the spec: the TrailDB call `tdb_get_trail` positions the
store cursor at the start of the trail with the given ordinal; `none` is any
status other than `TDB_ERR_OK`. -/
def tdb_get_trail (db : tdb) (_cursor : tdb_cursor) (trail_id : Nat) : Option tdb_cursor :=
  if db.trail_error trail_id then none else db.trails.get? trail_id

/-- Modelled from the spec: the TrailDB call `tdb_cursor_next` hands out the
next event of the trail the cursor is positioned at, or null when none is left. -/
def tdb_cursor_next (cursor : tdb_cursor) : Option tdb_event × tdb_cursor :=
  match cursor with
  | [] => (none, [])
  | e :: rest => (some e, rest)

/-! ## The cursor -/

/-- The `struct sqlite3_vtab_cursor_traildb`; the two handle pointers are the
store passed alongside. -/
structure sqlite3_vtab_cursor_traildb where
  cursor : tdb_cursor
  event : Option tdb_event
  empty_traildb : Bool
  row_idx : Nat
  trail_id : Nat
  total_trails : Nat
  deriving DecidableEq, Repr

/-- One pass through the body of the do-while loop of `traildbNext`
(lines 36-46): `Except.error` is the `return SQLITE_ERROR` of line 43. -/
def traildbNext_body (db : tdb) (scur : sqlite3_vtab_cursor_traildb) :
    Except (Int × sqlite3_vtab_cursor_traildb) sqlite3_vtab_cursor_traildb :=
  -- scur->event = tdb_cursor_next(scur->cursor);
  let scur := { scur with event := (tdb_cursor_next scur.cursor).1,
                          cursor := (tdb_cursor_next scur.cursor).2 }
  if scur.event.isNone then
    -- scur->trail_id++;
    let scur := { scur with trail_id := (scur.trail_id + 1) % U64 }
    if scur.trail_id < scur.total_trails then
      match tdb_get_trail db scur.cursor scur.trail_id with
      | none => .error (SQLITE_ERROR, scur)
      | some c => .ok { scur with cursor := c }
    else .ok scur
  else .ok scur

/-- The do-while loop of `traildbNext` (lines 33-48) followed by lines 49-52.
One unit of fuel is one iteration; `none` means the fuel ran out. -/
def traildbNext_loop (db : tdb) :
    Nat → sqlite3_vtab_cursor_traildb → Option (Int × sqlite3_vtab_cursor_traildb)
  | 0, _ => none
  | fuel + 1, scur =>
    match traildbNext_body db scur with
    | .error r => some r
    | .ok scur =>
      -- while ( scur->trail_id < scur->total_trails && scur->event == 0 );
      if scur.trail_id < scur.total_trails ∧ scur.event.isNone then
        traildbNext_loop db fuel scur
      else
        -- scur->row_idx++;
        some (SQLITE_OK, { scur with row_idx := (scur.row_idx + 1) % U64 })

/-- The function `traildbNext`. -/
def traildbNext (db : tdb) (fuel : Nat) (scur : sqlite3_vtab_cursor_traildb) :
    Option (Int × sqlite3_vtab_cursor_traildb) :=
  if scur.empty_traildb ∨ scur.trail_id ≥ scur.total_trails then
    some (SQLITE_OK, scur)
  else
    traildbNext_loop db fuel scur

/-- The function `traildbOpenCursor`.  The flags give the outcome of
`sqlite3_malloc` and of `tdb_cursor_new`; the second component is `*cur`. -/
def traildbOpenCursor (db : tdb) (malloc_ok cursor_new_ok : Bool) :
    Int × Option sqlite3_vtab_cursor_traildb :=
  if !malloc_ok then (SQLITE_NOMEM, none) else
  -- memset( (*cur), 0, ... )
  let scur : sqlite3_vtab_cursor_traildb :=
    { cursor := [], event := none, empty_traildb := false,
      row_idx := 0, trail_id := 0, total_trails := 0 }
  if !cursor_new_ok then (SQLITE_NOMEM, none) else
  let cursor : tdb_cursor := []
  let scur := { scur with cursor := cursor }
  if tdb_num_trails db = 0 then
    let scur := { scur with empty_traildb := true }
    (SQLITE_OK, some { scur with total_trails := tdb_num_trails db })
  else
    match tdb_get_trail db cursor 0 with
    | none => (SQLITE_NOMEM, none)
    | some c =>
      let scur := { scur with cursor := c }
      (SQLITE_OK, some { scur with total_trails := tdb_num_trails db })

/-- The function `traildbEof`. -/
def traildbEof (cur : sqlite3_vtab_cursor_traildb) : Int :=
  if cur.empty_traildb ∨ cur.trail_id ≥ cur.total_trails then 1 else 0

/-- The function `traildbFilter`; its index and argument parameters are unused. -/
def traildbFilter (db : tdb) (fuel : Nat) (cur : sqlite3_vtab_cursor_traildb) :
    Option (Int × sqlite3_vtab_cursor_traildb) :=
  if cur.empty_traildb then some (SQLITE_OK, cur) else
  match tdb_get_trail db cur.cursor 0 with
  | none => some (SQLITE_NOMEM, cur)
  | some c =>
    let cur := { cur with cursor := c }
    match traildbNext db fuel cur with
    | none => none
    | some (rc, cur) => some (rc, { cur with row_idx := 0 })

/-- Two's-complement reading of a 64-bit pattern (the cast to `sqlite_int64`). -/
def to_int64 (n : Nat) : Int :=
  if n % 2 ^ 64 < 2 ^ 63 then ((n % 2 ^ 64 : Nat) : Int) else ((n % 2 ^ 64 : Nat) : Int) - 2 ^ 64

/-- Two's-complement reading of the low 32 bits (the cast to `int`). -/
def to_int32 (n : Nat) : Int :=
  if n % 2 ^ 32 < 2 ^ 31 then ((n % 2 ^ 32 : Nat) : Int) else ((n % 2 ^ 32 : Nat) : Int) - 2 ^ 32

/-- The function `traildbRowId`: status and `*row_id`. -/
def traildbRowId (cur : sqlite3_vtab_cursor_traildb) : Int × Int :=
  (SQLITE_OK, to_int64 cur.row_idx)

/-- Modelled from the spec: the TrailDB call `tdb_get_uuid`, the identifier of
a trail; null for an ordinal that is not a trail. -/
def tdb_get_uuid (db : tdb) (trail_id : Nat) : Option (List Nat) :=
  if trail_id < tdb_num_trails db then some (db.uuid trail_id) else none

/-- The hexadecimal digit of a value below 16. -/
def hex_digit (n : Nat) : Char :=
  "0123456789abcdef".toList.getD n '0'

/-- Modelled from the spec: the TrailDB call `tdb_uuid_hex` renders the 16 raw
identifier bytes as 32 lowercase hexadecimal characters, no separators. -/
def tdb_uuid_hex (uuid : List Nat) : List Char :=
  (List.range 16).flatMap fun i =>
    [hex_digit (uuid.getD i 0 / 16 % 16), hex_digit (uuid.getD i 0 % 16)]

/-- What `traildbColumn` hands to the host: `sqlite3_result_text` with its
buffer and length argument, or `sqlite3_result_int64`. -/
inductive sqlite3_result where
  | text (z : List Char) (n : Int)
  | int64 (v : Int)
  deriving DecidableEq, Repr

/-- The function `traildbColumn`: status and the result set on `ctx`.  The
outer `none` is a read through a null pointer or outside `event->items`. -/
def traildbColumn (db : tdb) (scur : sqlite3_vtab_cursor_traildb) (N : Int) :
    Option (Int × Option sqlite3_result) :=
  match scur.event with
  | none => some (SQLITE_ERROR, none)
  | some event =>
    if N = 0 then
      match tdb_get_uuid db scur.trail_id with
      | none => none
      | some uuid => some (SQLITE_OK, some (.text (tdb_uuid_hex uuid) 32))
    else if N = 1 then
      some (SQLITE_OK, some (.int64 (to_int64 event.timestamp)))
    else if N - 2 < 0 then none
    else
      match event.items.get? (N - 2).toNat with
      | none => none
      | some item =>
        let field_str := db.item_value item
        let len := field_str.length
        some (SQLITE_OK, some (.text field_str (to_int32 len)))

/-! ## Scans -/

/-- The host's row loop: while `traildbEof` is false, present the row the
cursor stands on and call `traildbNext`.  The result lists the cursor states
at which a row was presented; `none` when a call did not return `SQLITE_OK`
or the `n` rounds (or the inner fuel) did not suffice. -/
def scan_rows (db : tdb) (fuel : Nat) :
    Nat → sqlite3_vtab_cursor_traildb → Option (List sqlite3_vtab_cursor_traildb)
  | 0, _ => none
  | n + 1, cur =>
    if traildbEof cur ≠ 0 then some [] else
    match traildbNext db fuel cur with
    | some (rc, cur1) =>
      if rc = SQLITE_OK then (scan_rows db fuel n cur1).map (cur :: ·) else none
    | none => none

/-- A full scan: `traildbOpenCursor` (both allocations succeeding), one
`traildbFilter`, then the row loop. -/
def full_scan (db : tdb) (fuel : Nat) : Option (List sqlite3_vtab_cursor_traildb) :=
  match traildbOpenCursor db true true with
  | (rc, some cur) =>
    if rc = SQLITE_OK then
      match traildbFilter db fuel cur with
      | some (rc1, cur1) => if rc1 = SQLITE_OK then scan_rows db fuel fuel cur1 else none
      | none => none
    else none
  | (_, none) => none

/-- Any number of consecutive `traildbNext` calls, each returning `SQLITE_OK`. -/
def next_calls (db : tdb) (fuel : Nat) :
    Nat → sqlite3_vtab_cursor_traildb → Option sqlite3_vtab_cursor_traildb
  | 0, cur => some cur
  | n + 1, cur =>
    match traildbNext db fuel cur with
    | some (rc, cur1) => if rc = SQLITE_OK then next_calls db fuel n cur1 else none
    | none => none

/-- The events of the trails `ts`, whose first trail has ordinal `k`, each
paired with the ordinal of its trail: trail order, then within-trail order. -/
def rows_from (k : Nat) : List (List tdb_event) → List (Nat × tdb_event)
  | [] => []
  | t :: ts => t.map (fun e => (k, e)) ++ rows_from (k + 1) ts

/-- The events of the whole store in scan order: trail 0, then trail 1, ...,
each event paired with the ordinal of the trail that holds it. -/
def store_rows (db : tdb) : List (Nat × tdb_event) :=
  db.trails.enum.flatMap fun p => p.2.map fun e => (p.1, e)

/-- A scan restarted on a used cursor: open, filter, `n` calls of
`traildbNext`, then `traildbFilter` again and the row loop. -/
def refilter_scan (db : tdb) (fuel n : Nat) : Option (List sqlite3_vtab_cursor_traildb) :=
  match traildbOpenCursor db true true with
  | (_, some cur) =>
    match traildbFilter db fuel cur with
    | some (_, cur1) =>
      match next_calls db fuel n cur1 with
      | some cur2 =>
        match traildbFilter db fuel cur2 with
        | some (rc, cur3) => if rc = SQLITE_OK then scan_rows db fuel fuel cur3 else none
        | none => none
      | none => none
    | none => none
  | (_, none) => none

/-- A store of three trails, the middle one empty. -/
def example_store : tdb :=
  { trails := [[⟨10, [0, 1]⟩, ⟨11, [2, 3]⟩], [], [⟨12, [4, 5]⟩]],
    uuid := fun i => [i, 255],
    ofields := ["a".toList, "b".toList],
    item_value := fun i => [Char.ofNat (97 + i)],
    trail_error := fun _ => false }

/-- A store of two trails with one event each. -/
def two_trail_store : tdb :=
  { trails := [[⟨10, []⟩], [⟨20, []⟩]],
    uuid := fun i => [i],
    ofields := [],
    item_value := fun _ => [],
    trail_error := fun _ => false }

/-- Rows still to come after the one the cursor stands on: the rest of the
current trail, then the later trails. -/
def pending (db : tdb) (scur : sqlite3_vtab_cursor_traildb) : List (Nat × tdb_event) :=
  rows_from scur.trail_id (scur.cursor :: db.trails.drop (scur.trail_id + 1))

/-- The cursor either is exhausted with no rows left, or stands on the first
row of `rs` with the others pending. -/
def at_rows (db : tdb) (scur : sqlite3_vtab_cursor_traildb) (rs : List (Nat × tdb_event)) : Prop :=
  scur.total_trails = db.trails.length ∧
  ((rs = [] ∧ (scur.empty_traildb = true ∨ scur.trail_id ≥ scur.total_trails)) ∨
   (scur.empty_traildb = false ∧ scur.trail_id < scur.total_trails ∧
     ∃ e, scur.event = some e ∧ rs = (scur.trail_id, e) :: pending db scur))

/-- What a row shows: trail ordinal, current event, row identity. -/
def row_view (cur : sqlite3_vtab_cursor_traildb) : Nat × Option tdb_event × Int :=
  (cur.trail_id, cur.event, (traildbRowId cur).2)

/-! ## Removing the quotes of the file name -/

/-- Outcome of code that works through a buffer by index. -/
inductive Run (α : Type) where
  /-- Normal completion. -/
  | ret (a : α)
  /-- An access outside the buffer: undefined behaviour in C. -/
  | fault
  /-- The fuel of the model ran out. -/
  | timeout
  deriving DecidableEq, Repr

/-- The terminator of C strings. -/
def NUL : Char := Char.ofNat 0
/-- The double quote. -/
def DQUOTE : Char := Char.ofNat 34
/-- The single quote. -/
def SQUOTE : Char := Char.ofNat 39
/-- The backtick. -/
def BTICK : Char := Char.ofNat 96
/-- The opening square bracket. -/
def LBRACKET : Char := Char.ofNat 91
/-- The closing square bracket. -/
def RBRACKET : Char := Char.ofNat 93

/-- The C string a buffer holds: its characters before the first NUL. -/
def c_string (buf : List Char) : List Char := buf.takeWhile (fun c => c != NUL)

/-- The `while(1)` loop of `fileDequote` (lines 174-178): the buffer and `iOut`
at the `break`.  One unit of fuel is one iteration. -/
def fileDequote_loop (q : Char) : Nat → List Char → Nat → Nat → Run (List Char × Nat)
  | 0, _, _, _ => .timeout
  | fuel + 1, zIn, iIn, iOut =>
    -- char c = zIn[iIn++];
    match zIn[iIn]? with
    | none => .fault
    | some c =>
      if c = q then
        -- zIn[iIn++]!=q
        match zIn[iIn + 1]? with
        | none => .fault
        | some d =>
          if d ≠ q then .ret (zIn, iOut)
          else if iOut < zIn.length then
            -- zIn[iOut++] = c;
            fileDequote_loop q fuel (zIn.set iOut c) (iIn + 1 + 1) (iOut + 1)
          else .fault
      else if iOut < zIn.length then
        -- zIn[iOut++] = c;
        fileDequote_loop q fuel (zIn.set iOut c) (iIn + 1) (iOut + 1)
      else .fault

/-- The function `fileDequote`, on the buffer `zIn` points to; the result is
the buffer afterwards. -/
def fileDequote (fuel : Nat) (zIn : List Char) : Run (List Char) :=
  -- char q = zIn[0];
  match zIn[0]? with
  | none => .fault
  | some q =>
    if q = DQUOTE ∨ q = SQUOTE ∨ q = BTICK ∨ q = LBRACKET then
      let q := if q = LBRACKET then RBRACKET else q
      match fileDequote_loop q fuel zIn 1 0 with
      | .ret (zIn, iOut) =>
        -- zIn[iOut] = 0;
        if iOut < zIn.length then .ret (zIn.set iOut NUL) else .fault
      | .fault => .fault
      | .timeout => .timeout
    else .ret zIn

/-- The closing delimiter that `fileDequote` pairs with an opening one. -/
def closing (q : Char) : Char := if q = LBRACKET then RBRACKET else q

/-- Quoting by doubling: every occurrence of the delimiter `q` written twice. -/
def esc (q : Char) (s : List Char) : List Char :=
  s.flatMap fun c => if c = q then [c, c] else [c]

/-! ## Connecting: the schema declaration -/

/-- Modelled from the spec: the TrailDB call `tdb_num_fields` counts the
built-in timestamp field and the fields after it. -/
def tdb_num_fields (db : tdb) : Nat := db.ofields.length + 1

/-- Modelled from the spec: the TrailDB call `tdb_get_field_name`; field 0 is
the built-in timestamp field `time`, field i+1 the i-th catalog field. -/
def tdb_get_field_name (db : tdb) (field : Nat) : List Char :=
  if field = 0 then "time".toList else db.ofields.getD (field - 1) []

/-- The field catalog: the names of the store's fields after the timestamp
field, as C strings. -/
def field_catalog (db : tdb) : List (List Char) := db.ofields.map c_string

/-- The heap objects `traildbConnect` allocates through `sqlite3_malloc` and
`sqlite3_mprintf`, and the two that `traildbOpenCursor` acquires. -/
inductive Obj where
  /-- The message stored to `*err`. -/
  | err_msg
  | fname
  /-- The array `traildb_fields_str`. -/
  | fields_str
  /-- The string `traildb_fields_str[i]`. -/
  | field_str (i : Nat)
  | concatfields
  | traildb_fields
  | svt
  /-- The `struct sqlite3_vtab_cursor_traildb` of `traildbOpenCursor`. -/
  | scur
  /-- The store-side cursor made by `tdb_cursor_new`. -/
  | cursor
  deriving DecidableEq, Repr

/-- What `traildbConnect` does to the world around it, in order. -/
inductive Effect where
  /-- A successful allocation. -/
  | alloc (o : Obj)
  /-- The call `sqlite3_free` on a non-null pointer (for the store-side
  cursor, the call `tdb_cursor_free`). -/
  | free (o : Obj)
  /-- The call `tdb_init`. -/
  | tdb_init
  /-- The call `tdb_open` with the path it is given. -/
  | tdb_open (path : List Char)
  /-- The call `tdb_close` on the handle. -/
  | tdb_close
  /-- The call `sqlite3_declare_vtab` with the text it is given. -/
  | declare_vtab (text : List Char)
  deriving DecidableEq, Repr

/-- The surroundings of `traildbConnect`: the outcome of every fallible call. -/
structure Host where
  /-- Whether `tdb_init` returns a handle. -/
  init_ok : Bool
  /-- Whether the allocation of an object succeeds. -/
  alloc_ok : Obj → Bool
  /-- The byte fresh memory from `sqlite3_malloc` holds (it is not cleared). -/
  fresh : Char
  /-- The store `tdb_open` finds at a path, or the text of its error. -/
  open_store : List Char → Except (List Char) tdb
  /-- The status of `sqlite3_declare_vtab` for a text. -/
  declare_rc : List Char → Int

/-- The `struct sqlite3_vtab_traildb`. -/
structure sqlite3_vtab_traildb where
  traildb_handle : Option tdb

/-- What a call of `traildbConnect` leaves behind: its status, `*err` and
`*vtabs` when stored, and its effects. -/
structure ConnectResult where
  rc : Int
  err : Option (List Char)
  vtabs : Option sqlite3_vtab_traildb
  trace : List Effect

/-- The C string a buffer holds when read through a pointer to its start:
`none` when the buffer has no NUL and the read runs off its end. -/
def read_c_string (buf : List Char) : Option (List Char) :=
  if NUL ∈ buf then some (c_string buf) else none

/-- The statement `*err = sqlite3_mprintf(msg)`: the value stored. -/
def mprintf_err (host : Host) (msg : List Char) : Option (List Char) :=
  if host.alloc_ok .err_msg then some msg else none

/-- The effect of `*err = sqlite3_mprintf(msg)`. -/
def mprintf_err_effect (host : Host) : List Effect :=
  if host.alloc_ok .err_msg then [.alloc .err_msg] else []

/-- The loops that free every non-null entry of `traildb_fields_str`
(lines 262-266, 277-281 and 301-305). -/
def free_field_strs (arr : List (Option (List Char))) : List Effect :=
  arr.enum.filterMap fun p => if p.2.isSome then some (.free (.field_str p.1)) else none

/-- The loop of lines 259-272 with `n` iterations left: the array, the total
length and the effects at its end, or `Except.error` with the array and the
effects when the allocation of line 260 fails. -/
def traildbConnect_names (host : Host) (t : tdb) :
    Nat → Nat → List (Option (List Char)) → Nat → List Effect →
      Except (List (Option (List Char)) × List Effect)
        (List (Option (List Char)) × Nat × List Effect)
  | 0, _, arr, total, tr => .ok (arr, total, tr)
  | n + 1, i, arr, total, tr =>
    -- traildb_fields_str[i+2] = sqlite3_mprintf("%s", tdb_get_field_name(t, i+1));
    if host.alloc_ok (.field_str (i + 2)) then
      let str := c_string (tdb_get_field_name t (i + 1))
      -- total_length_of_fields += strlen(traildb_fields_str[i+2])+2;
      traildbConnect_names host t n (i + 1) (arr.set (i + 2) (some str))
        (total + (str.length + 2)) (tr ++ [.alloc (.field_str (i + 2))])
    else .error (arr, tr)

/-- The loop of lines 290-298 with `n` iterations left: the buffer
`concatfields` and `concat_cursor` at its end. -/
def traildbConnect_concat (arr : List (Option (List Char))) :
    Nat → Nat → List Char → Nat → Run (List Char × Nat)
  | 0, _, buf, concat_cursor => .ret (buf, concat_cursor)
  | n + 1, i, buf, concat_cursor =>
    -- if ( i > 2 ) the comma
    match (if i > 2 then
             (if concat_cursor < buf.length then
                Run.ret (buf.set concat_cursor ',', concat_cursor + 1)
              else Run.fault)
           else Run.ret (buf, concat_cursor)) with
    | .ret (buf, concat_cursor) =>
      match arr.get? i with
      | some (some str) =>
        -- memcpy(&concatfields[concat_cursor], traildb_fields_str[i], strlen(...));
        if concat_cursor + str.length ≤ buf.length then
          traildbConnect_concat arr n (i + 1)
            (buf.take concat_cursor ++ str ++ buf.drop (concat_cursor + str.length))
            (concat_cursor + str.length)
        else .fault
      | _ => .fault
    | .fault => .fault
    | .timeout => .timeout

/-- Lines 223-336 of `traildbConnect`: what follows the successful `tdb_open`
of the store `t`, the effects so far being `tr`.  Sizes are naturals: the
store bounds the number of fields and the length of a name. -/
def traildbConnect_schema (host : Host) (t : tdb) (tr : List Effect) : Run ConnectResult :=
  let total_length_of_fields := 0
  if !host.alloc_ok .fields_str then
    .ret { rc := SQLITE_NOMEM, err := none, vtabs := none, trace := tr ++ [.tdb_close] }
  else
  let tr := tr ++ [.alloc .fields_str]
  -- memset(traildb_fields_str, 0, ...)
  let traildb_fields_str : List (Option (List Char)) := List.replicate (tdb_num_fields t + 1) none
  -- traildb_fields_str[0] = sqlite3_mprintf("uuid");
  let total_length_of_fields := total_length_of_fields + 6
  if !host.alloc_ok (.field_str 0) then
    .ret { rc := SQLITE_NOMEM, err := none, vtabs := none,
           trace := tr ++ [.free .fields_str, .tdb_close] }
  else
  let traildb_fields_str := traildb_fields_str.set 0 (some "uuid".toList)
  let tr := tr ++ [.alloc (.field_str 0)]
  -- traildb_fields_str[1] = sqlite3_mprintf("timestamp");
  let total_length_of_fields := total_length_of_fields + 11
  if !host.alloc_ok (.field_str 1) then
    .ret { rc := SQLITE_NOMEM, err := none, vtabs := none,
           trace := tr ++ [.free (.field_str 0), .free .fields_str, .tdb_close] }
  else
  let traildb_fields_str := traildb_fields_str.set 1 (some "timestamp".toList)
  let tr := tr ++ [.alloc (.field_str 1)]
  match traildbConnect_names host t (tdb_num_fields t - 1) 0 traildb_fields_str
      total_length_of_fields tr with
  | .error (traildb_fields_str, tr) =>
    .ret { rc := SQLITE_NOMEM, err := none, vtabs := none,
           trace := tr ++ free_field_strs traildb_fields_str ++ [.free .fields_str, .tdb_close] }
  | .ok (traildb_fields_str, total_length_of_fields, tr) =>
    -- char* concatfields = sqlite3_malloc(total_length_of_fields);
    if !host.alloc_ok .concatfields then
      .ret { rc := SQLITE_NOMEM, err := none, vtabs := none,
             trace := tr ++ free_field_strs traildb_fields_str ++ [.tdb_close] }
    else
    let tr := tr ++ [.alloc .concatfields]
    -- memset(concatfields, 0, total_length_of_fields);
    let concatfields := List.replicate total_length_of_fields NUL
    match traildbConnect_concat traildb_fields_str (tdb_num_fields t + 1 - 2) 2 concatfields 0 with
    | .fault => .fault
    | .timeout => .timeout
    | .ret (concatfields, _) =>
      let tr := tr ++ free_field_strs traildb_fields_str ++ [.free .fields_str]
      -- sqlite3_mprintf("CREATE TABLE t( uuid TEXT, timestamp INTEGER, %s );", concatfields)
      match read_c_string concatfields with
      | none => .fault
      | some fields =>
        if !host.alloc_ok .traildb_fields then
          .ret { rc := SQLITE_NOMEM, err := none, vtabs := none,
                 trace := tr ++ [.free .concatfields, .tdb_close] }
        else
        let traildb_fields :=
          "CREATE TABLE t( uuid TEXT, timestamp INTEGER, ".toList ++ fields ++ " );".toList
        let tr := tr ++ [.alloc .traildb_fields, .free .concatfields]
        -- int rc = sqlite3_declare_vtab(db, traildb_fields);
        let rc := host.declare_rc traildb_fields
        let tr := tr ++ [.declare_vtab traildb_fields, .free .traildb_fields]
        if rc ≠ SQLITE_OK then
          .ret { rc := rc, err := none, vtabs := none, trace := tr ++ [.tdb_close] }
        else if !host.alloc_ok .svt then
          .ret { rc := SQLITE_NOMEM, err := none, vtabs := none, trace := tr ++ [.tdb_close] }
        else
          .ret { rc := SQLITE_OK, err := none, vtabs := some { traildb_handle := some t },
                 trace := tr ++ [.alloc .svt] }

/-- Lines 190-221 of `traildbConnect`: the argument check, `tdb_init`, the
copy of `argv[3]`, `fileDequote` and `tdb_open`.  The result is either what the
function returns from these lines, or the opened store with the effects so
far; `fuel` bounds the loop of `fileDequote`. -/
def traildbConnect_open (host : Host) (fuel : Nat) (argc : Int) (argv : List (List Char)) :
    Run (ConnectResult ⊕ (tdb × List Effect)) :=
  if argc < 4 ∨ argc > 4 then
    .ret (.inl { rc := SQLITE_ERROR,
                 err := mprintf_err host "traildb requires one argument exactly".toList,
                 vtabs := none, trace := mprintf_err_effect host })
  else
  -- tdb* t = tdb_init();
  let tr := [Effect.tdb_init]
  if !host.init_ok then
    .ret (.inl { rc := SQLITE_ERROR,
                 err := mprintf_err host "traildb failed to call tdb_init()".toList,
                 vtabs := none, trace := tr ++ mprintf_err_effect host })
  else
  match argv.get? 3 with
  | none => .fault
  | some arg =>
    -- char* fname = sqlite3_malloc(strlen(argv[3])+1);
    if !host.alloc_ok .fname then
      .ret (.inl { rc := SQLITE_NOMEM, err := mprintf_err host "out of memory".toList,
                   vtabs := none, trace := tr ++ mprintf_err_effect host })
    else
    let tr := tr ++ [.alloc .fname]
    -- memcpy(fname, argv[3], strlen(argv[3]));
    let fname := c_string arg ++ [host.fresh]
    match fileDequote fuel fname with
    | .fault => .fault
    | .timeout => .timeout
    | .ret fname =>
      -- tdb_error terr = tdb_open(t, fname);
      match read_c_string fname with
      | none => .fault
      | some path =>
        let tr := tr ++ [.tdb_open path]
        match host.open_store path with
        | .error msg =>
          .ret (.inl { rc := SQLITE_ERROR,
                       err := mprintf_err host
                         ("traildb failed to call tdb_open(".toList ++ path ++ "): ".toList
                           ++ msg),
                       vtabs := none,
                       trace := tr ++ mprintf_err_effect host ++ [.free .fname] })
        | .ok t => .ret (.inr (t, tr ++ [.free .fname]))

/-- The function `traildbConnect`: lines 190-221, then lines 223-336 on the
opened store. -/
def traildbConnect (host : Host) (fuel : Nat) (argc : Int) (argv : List (List Char)) :
    Run ConnectResult :=
  match traildbConnect_open host fuel argc argv with
  | .ret (.inl r) => .ret r
  | .ret (.inr (t, tr)) => traildbConnect_schema host t tr
  | .fault => .fault
  | .timeout => .timeout

/-- The texts handed to `sqlite3_declare_vtab`, in order. -/
def declared (tr : List Effect) : List (List Char) :=
  tr.filterMap fun e => match e with
    | .declare_vtab text => some text
    | _ => none

/-- The column list of a `CREATE TABLE t( ... );` text: what stands between
the parentheses. -/
def column_list (text : List Char) : List Char := ((text.drop 15).reverse.drop 2).reverse

/-- Whether a column list ends in a comma followed by blanks only. -/
def trailing_comma (cols : List Char) : Bool :=
  (cols.reverse.dropWhile (fun c => c == ' ')).head? == some ','

/-- The arguments of `CREATE VIRTUAL TABLE t USING traildb (./store)`. -/
def example_argv : List (List Char) :=
  ["traildb".toList, "main".toList, "t".toList, "./store".toList]

/-- A host where nothing fails: every allocation succeeds, fresh memory is
zero, every path opens the store `t` and every declaration is accepted. -/
def good_host (t : tdb) : Host :=
  { init_ok := true, alloc_ok := fun _ => true, fresh := NUL,
    open_store := fun _ => .ok t, declare_rc := fun _ => SQLITE_OK }

/-! ## Resources and call sequences -/

/-- The allocator calls of `traildbOpenCursor`, in order, along the control
flow of the function: `sqlite3_malloc` of the cursor structure (line 60),
`tdb_cursor_new` (line 68) and the `sqlite3_free` calls of lines 70 and 83. -/
def traildbOpenCursor_effects (db : tdb) (malloc_ok cursor_new_ok : Bool) : List Effect :=
  if !malloc_ok then [] else
  let tr := [Effect.alloc .scur]
  if !cursor_new_ok then tr ++ [.free .scur] else
  let tr := tr ++ [.alloc .cursor]
  if tdb_num_trails db = 0 then tr
  else
    match tdb_get_trail db [] 0 with
    | none => tr ++ [.free .scur]
    | some _ => tr

/-- The objects that are live after a sequence of effects: allocated and not
released since. -/
def live (tr : List Effect) : List Obj :=
  tr.foldl (fun l e => match e with
    | .alloc o => l ++ [o]
    | .free o => l.erase o
    | _ => l) []

/-- How often an object is released in a sequence of effects. -/
def free_count (o : Obj) (tr : List Effect) : Nat :=
  (tr.filter fun e => e == .free o).length

/-- How often `tdb_close` is called in a sequence of effects. -/
def close_count (tr : List Effect) : Nat :=
  (tr.filter fun e => match e with
    | .tdb_close => true
    | _ => false).length

/-- The two calls the host makes on an open cursor between rows. -/
inductive CursorCall where
  | filter
  | next
  deriving DecidableEq, Repr

/-- A sequence of `traildbFilter` and `traildbNext` calls on a cursor, each
returning `SQLITE_OK`: the cursor afterwards. -/
def run_calls (db : tdb) (fuel : Nat) :
    List CursorCall → sqlite3_vtab_cursor_traildb → Option sqlite3_vtab_cursor_traildb
  | [], cur => some cur
  | .filter :: calls, cur =>
    match traildbFilter db fuel cur with
    | some (rc, cur1) => if rc = SQLITE_OK then run_calls db fuel calls cur1 else none
    | none => none
  | .next :: calls, cur =>
    match traildbNext db fuel cur with
    | some (rc, cur1) => if rc = SQLITE_OK then run_calls db fuel calls cur1 else none
    | none => none

/-- A cursor opened on a store (both allocations succeeding) and put through
a sequence of calls. -/
def open_and_run (db : tdb) (fuel : Nat) (calls : List CursorCall) :
    Option sqlite3_vtab_cursor_traildb :=
  match traildbOpenCursor db true true with
  | (_, some cur) => run_calls db fuel calls cur
  | (_, none) => none

/-- The two-trail store with `tdb_get_trail` failing on trail 0. -/
def failing_trail_store : tdb :=
  { two_trail_store with trail_error := fun i => i == 0 }

/-- A host where only the allocation of `concatfields` fails. -/
def concat_failing_host (t : tdb) : Host :=
  { good_host t with alloc_ok := fun o => o != .concatfields }

/-- A host where nothing fails but fresh memory holds the letter x. -/
def dirty_host (t : tdb) : Host :=
  { good_host t with fresh := 'x' }

theorem rows_from_length (ts : List (List tdb_event)) :
    ∀ k, (rows_from k ts).length = (ts.map List.length).sum := by
  induction ts with
  | nil => intro k; rfl
  | cons t ts ih => intro k; simp [rows_from, ih]

theorem traildbNext_loop_spec (db : tdb) (hT : db.trails.length < U64)
    (herr : ∀ i, i < db.trails.length → db.trail_error i = false) :
    ∀ (fuel : Nat) (scur : sqlite3_vtab_cursor_traildb),
      scur.total_trails = db.trails.length → scur.empty_traildb = false →
      scur.trail_id < db.trails.length → db.trails.length - scur.trail_id ≤ fuel →
      ∃ scur1, traildbNext_loop db fuel scur = some (SQLITE_OK, scur1) ∧
        at_rows db scur1 (pending db scur) ∧ scur1.row_idx = (scur.row_idx + 1) % U64 := by
  intro fuel
  induction fuel with
  | zero => intro scur _ _ h1 h2; omega
  | succ fuel ih =>
    rintro ⟨cursor, event, empty, row_idx, k, total⟩ htot hemp hlt hfuel
    simp only at htot hemp hlt hfuel
    subst htot hemp
    cases cursor with
    | nil =>
      by_cases hk : k + 1 < db.trails.length
      · have hmod : (k + 1) % U64 = k + 1 := Nat.mod_eq_of_lt (by omega)
        have hget : db.trails.get? (k + 1) = some db.trails[k + 1] := List.get?_eq_get hk
        have hdrop : db.trails.drop (k + 1) = db.trails[k + 1] :: db.trails.drop (k + 1 + 1) :=
          List.drop_eq_getElem_cons hk
        obtain ⟨s1, h1, h2, h3⟩ := ih
          { cursor := db.trails[k + 1], event := none, empty_traildb := false, row_idx := row_idx,
            trail_id := k + 1, total_trails := db.trails.length } rfl rfl hk (by simp only; omega)
        refine ⟨s1, ?_, ?_, ?_⟩
        · simp only [traildbNext_loop, traildbNext_body, tdb_cursor_next, hmod, hk,
            tdb_get_trail, herr _ hk, hget, Option.isNone_none, if_true, and_self,
            Bool.false_eq_true, if_false]
          exact h1
        · simpa only [pending, hdrop, rows_from, List.map_nil, List.nil_append] using h2
        · exact h3
      · have hk1 : k + 1 = db.trails.length := by omega
        have hmod : (k + 1) % U64 = k + 1 := Nat.mod_eq_of_lt (by omega)
        have hdrop : db.trails.drop (k + 1) = [] := List.drop_eq_nil_of_le (by omega)
        refine ⟨{ cursor := [], event := none, empty_traildb := false,
                  row_idx := (row_idx + 1) % U64, trail_id := k + 1,
                  total_trails := db.trails.length }, ?_, ?_, ?_⟩
        · simp only [traildbNext_loop, traildbNext_body, tdb_cursor_next, hmod, hk,
            Option.isNone_none, if_true, if_false, false_and]
        · refine ⟨rfl, Or.inl ⟨?_, Or.inr ?_⟩⟩
          · simp only [pending, hdrop, rows_from, List.map_nil, List.nil_append]
          · simp only; omega
        · rfl
    | cons e rem =>
      refine ⟨{ cursor := rem, event := some e, empty_traildb := false,
                row_idx := (row_idx + 1) % U64, trail_id := k,
                total_trails := db.trails.length }, ?_, ?_, ?_⟩
      · simp only [traildbNext_loop, traildbNext_body, tdb_cursor_next, Option.isNone_some,
          Bool.false_eq_true, if_false, and_false]
      · refine ⟨rfl, Or.inr ⟨rfl, hlt, e, rfl, ?_⟩⟩
        simp only [pending, rows_from, List.map_cons, List.cons_append]
      · rfl

theorem traildbNext_spec (db : tdb) (hT : db.trails.length < U64)
    (herr : ∀ i, i < db.trails.length → db.trail_error i = false)
    (fuel : Nat) (hfuel : db.trails.length ≤ fuel)
    (scur : sqlite3_vtab_cursor_traildb) (p : Nat × tdb_event) (more : List (Nat × tdb_event))
    (h : at_rows db scur (p :: more)) :
    traildbEof scur = 0 ∧ (scur.trail_id, scur.event) = (p.1, some p.2) ∧
    ∃ scur1, traildbNext db fuel scur = some (SQLITE_OK, scur1) ∧ at_rows db scur1 more ∧
      scur1.row_idx = (scur.row_idx + 1) % U64 := by
  obtain ⟨htot, h | ⟨hemp, hlt, e, hev, hrs⟩⟩ := h
  · exact absurd h.1 (List.cons_ne_nil _ _)
  · have hp : p = (scur.trail_id, e) := (List.cons.inj hrs).1
    have hmore : more = pending db scur := (List.cons.inj hrs).2
    have hguard : ¬ (scur.empty_traildb = true ∨ scur.trail_id ≥ scur.total_trails) := by
      rw [hemp]; simp only [Bool.false_eq_true, false_or, not_le]; exact hlt
    refine ⟨by simp only [traildbEof, hguard, if_false], by rw [hp, hev], ?_⟩
    obtain ⟨s1, h1, h2, h3⟩ := traildbNext_loop_spec db hT herr fuel scur htot hemp
      (htot ▸ hlt) (by omega)
    exact ⟨s1, by simp only [traildbNext, hguard, if_false]; exact h1, hmore ▸ h2, h3⟩

theorem scan_rows_spec (db : tdb) (hT : db.trails.length < U64)
    (herr : ∀ i, i < db.trails.length → db.trail_error i = false)
    (fuel : Nat) (hfuel : db.trails.length ≤ fuel) :
    ∀ (rs : List (Nat × tdb_event)) (n : Nat) (scur : sqlite3_vtab_cursor_traildb),
      at_rows db scur rs → rs.length < n →
      ∃ rows, scan_rows db fuel n scur = some rows ∧
        rows.map (fun c => (c.trail_id, c.event)) = rs.map (fun p => (p.1, some p.2)) ∧
        rows.map (fun c => c.row_idx % U64)
          = (List.range rs.length).map (fun j => (scur.row_idx + j) % U64) := by
  intro rs
  induction rs with
  | nil =>
    intro n scur h hn
    obtain ⟨_, h | ⟨_, _, e, _, hrs⟩⟩ := h
    · obtain ⟨m, rfl⟩ : ∃ m, n = m + 1 := ⟨n - 1, by simp at hn; omega⟩
      refine ⟨[], ?_, rfl, rfl⟩
      have : traildbEof scur = 1 := by simp only [traildbEof, h.2, if_true]
      simp only [scan_rows, this]
      rfl
    · exact absurd hrs (List.cons_ne_nil _ _).symm
  | cons p more ih =>
    intro n scur h hn
    obtain ⟨m, rfl⟩ : ∃ m, n = m + 1 := ⟨n - 1, by simp at hn; omega⟩
    obtain ⟨heof, hrow, s1, hnext, hat, hidx⟩ := traildbNext_spec db hT herr fuel hfuel scur p more h
    obtain ⟨rows, hscan, hmap, hids⟩ := ih m s1 hat (by simpa using hn)
    refine ⟨scur :: rows, ?_, ?_, ?_⟩
    · simp only [scan_rows, heof, hnext, hscan]
      rfl
    · simp only [List.map_cons, hmap, hrow]
    · simp only [List.map_cons, hids, List.length_cons, List.range_succ_eq_map, List.map_map,
        Nat.add_zero, hidx]
      congr 1
      apply List.map_congr_left
      intro j _
      simp only [Function.comp, Nat.succ_eq_add_one]
      rw [Nat.mod_add_mod]; congr 1; omega

theorem traildbOpenCursor_ok (db : tdb)
    (herr : ∀ i, i < db.trails.length → db.trail_error i = false) :
    ∃ cur, traildbOpenCursor db true true = (SQLITE_OK, some cur) ∧
      cur.total_trails = db.trails.length ∧ cur.trail_id = 0 ∧ cur.row_idx = 0 ∧
      cur.event = none ∧ (cur.empty_traildb = true ↔ db.trails.length = 0) := by
  by_cases h0 : db.trails.length = 0
  · refine ⟨{ cursor := [], event := none, empty_traildb := true, row_idx := 0, trail_id := 0,
              total_trails := db.trails.length }, ?_, ?_⟩
    · simp only [traildbOpenCursor, tdb_num_trails, h0, Bool.not_true, Bool.false_eq_true,
        if_false, if_true]
    · simp [h0]
  · have hpos : 0 < db.trails.length := Nat.pos_of_ne_zero h0
    have hget : db.trails.get? 0 = some db.trails[0] := List.get?_eq_get hpos
    refine ⟨{ cursor := db.trails[0], event := none, empty_traildb := false, row_idx := 0,
              trail_id := 0, total_trails := db.trails.length }, ?_, ?_⟩
    · simp only [traildbOpenCursor, tdb_num_trails, h0, Bool.not_true, Bool.false_eq_true,
        if_false, tdb_get_trail, herr 0 hpos, hget]
    · simp [h0]

theorem at_rows_row_idx (db : tdb) (cur : sqlite3_vtab_cursor_traildb)
    (rs : List (Nat × tdb_event)) (r : Nat) (h : at_rows db cur rs) :
    at_rows db { cur with row_idx := r } rs := h

theorem traildbFilter_first (db : tdb) (hT : db.trails.length < U64)
    (herr : ∀ i, i < db.trails.length → db.trail_error i = false)
    (fuel : Nat) (hfuel : db.trails.length ≤ fuel) (cur : sqlite3_vtab_cursor_traildb)
    (htot : cur.total_trails = db.trails.length) (hid : cur.trail_id = 0)
    (hrow : cur.row_idx = 0)
    (hemp : cur.empty_traildb = true ↔ db.trails.length = 0) :
    ∃ cur1, traildbFilter db fuel cur = some (SQLITE_OK, cur1) ∧
      at_rows db cur1 (rows_from 0 db.trails) ∧ cur1.row_idx = 0 := by
  by_cases h0 : db.trails.length = 0
  · have he : cur.empty_traildb = true := hemp.2 h0
    refine ⟨cur, by simp only [traildbFilter, he, if_true], ⟨htot, Or.inl ⟨?_, Or.inl he⟩⟩, hrow⟩
    rw [List.length_eq_zero.1 h0]; rfl
  · have hpos : 0 < db.trails.length := Nat.pos_of_ne_zero h0
    have he : cur.empty_traildb = false := by
      cases hc : cur.empty_traildb with
      | false => rfl
      | true => exact absurd (hemp.1 hc) h0
    have hget : db.trails.get? 0 = some db.trails[0] := List.get?_eq_get hpos
    have hdrop : db.trails = db.trails[0] :: db.trails.drop 1 := by
      have := List.drop_eq_getElem_cons hpos
      simpa using this
    obtain ⟨c, ev, emp, ri, k, tot⟩ := cur
    simp only at htot hid he
    subst htot hid he
    obtain ⟨s1, h1, h2, _⟩ := traildbNext_loop_spec db hT herr fuel
      { cursor := db.trails[0], event := ev, empty_traildb := false, row_idx := ri,
        trail_id := 0, total_trails := db.trails.length } rfl rfl hpos (by simp only; omega)
    refine ⟨{ s1 with row_idx := 0 }, ?_, ?_, rfl⟩
    · simp only [traildbFilter, Bool.false_eq_true, if_false, tdb_get_trail, herr 0 hpos,
        hget, traildbNext, ge_iff_le, Nat.le_zero, h0, or_self, h1]
    · apply at_rows_row_idx
      have hp : pending db { cursor := db.trails[0], event := ev, empty_traildb := false,
                             row_idx := ri, trail_id := 0, total_trails := db.trails.length }
          = rows_from 0 db.trails := by
        simp only [pending, Nat.zero_add]
        rw [← hdrop]
      rw [← hp]; exact h2

theorem full_scan_spec (db : tdb) (hT : db.trails.length < U64)
    (herr : ∀ i, i < db.trails.length → db.trail_error i = false)
    (fuel : Nat) (hfuel : db.trails.length + (rows_from 0 db.trails).length < fuel) :
    ∃ rows, full_scan db fuel = some rows ∧
      rows.map (fun c => (c.trail_id, c.event))
        = (rows_from 0 db.trails).map (fun p => (p.1, some p.2)) ∧
      rows.map (fun c => c.row_idx % U64)
        = (List.range (rows_from 0 db.trails).length).map (fun j => j % U64) := by
  obtain ⟨cur, hopen, htot, hid, hrow, _, hemp⟩ := traildbOpenCursor_ok db herr
  obtain ⟨cur1, hfilter, hat, hrow1⟩ :=
    traildbFilter_first db hT herr fuel (by omega) cur htot hid hrow hemp
  obtain ⟨rows, hscan, hmap, hids⟩ :=
    scan_rows_spec db hT herr fuel (by omega) _ fuel cur1 hat (by omega)
  refine ⟨rows, ?_, hmap, ?_⟩
  · simp only [full_scan, hopen, hfilter, hscan, if_true]
  · rw [hids, hrow1]; simp only [Nat.zero_add]

theorem rows_from_eq_enumFrom (ts : List (List tdb_event)) :
    ∀ k, rows_from k ts = (ts.enumFrom k).flatMap fun p => p.2.map fun e => (p.1, e) := by
  induction ts with
  | nil => intro k; rfl
  | cons t ts ih => intro k; simp [rows_from, ih, List.enumFrom]

theorem rows_from_eq_store_rows (db : tdb) : rows_from 0 db.trails = store_rows db := by
  rw [rows_from_eq_enumFrom]; rfl

theorem store_rows_length (db : tdb) : (store_rows db).length = tdb_num_events db := by
  rw [← rows_from_eq_store_rows, rows_from_length]; rfl

theorem rows_from_mem (ts : List (List tdb_event)) :
    ∀ (k : Nat) (p : Nat × tdb_event), p ∈ rows_from k ts →
      ∃ i, ∃ h : i < ts.length, p.1 = k + i ∧ p.2 ∈ ts[i] := by
  induction ts with
  | nil => intro k p hp; simp [rows_from] at hp
  | cons t ts ih =>
    intro k p hp
    simp only [rows_from, List.mem_append, List.mem_map] at hp
    rcases hp with ⟨e, he, rfl⟩ | hp
    · exact ⟨0, by simp, rfl, by simpa using he⟩
    · obtain ⟨i, hi, h1, h2⟩ := ih (k + 1) p hp
      exact ⟨i + 1, by simpa using hi, by omega, by simpa using h2⟩

theorem tdb_uuid_hex_length (uuid : List Nat) : (tdb_uuid_hex uuid).length = 32 := by
  have h : ∀ l : List Nat, (l.flatMap fun i =>
      [hex_digit (uuid.getD i 0 / 16 % 16), hex_digit (uuid.getD i 0 % 16)]).length
      = 2 * l.length := by
    intro l
    induction l with
    | nil => rfl
    | cons a l ih =>
      simp only [List.flatMap_cons, List.length_append, List.length_cons, List.length_nil, ih]
      omega
  rw [tdb_uuid_hex, h]; rfl

theorem rows_from_all_empty (ts : List (List tdb_event)) (h : ∀ t ∈ ts, t = []) :
    ∀ k, rows_from k ts = [] := by
  induction ts with
  | nil => intro k; rfl
  | cons t ts ih =>
    intro k
    have ht : t = [] := h t (List.mem_cons_self _ _)
    subst ht
    simp only [rows_from, List.map_nil, List.nil_append]
    exact ih (fun t ht => h t (List.mem_cons_of_mem _ ht)) (k + 1)

theorem traildbEof_of_at_rows_nil (db : tdb) (cur : sqlite3_vtab_cursor_traildb)
    (h : at_rows db cur []) : traildbEof cur = 1 := by
  obtain ⟨_, h | ⟨_, _, e, _, hrs⟩⟩ := h
  · simp only [traildbEof, h.2, if_true]
  · exact absurd hrs (List.cons_ne_nil _ _).symm

theorem scan_rows_of_eof (db : tdb) (fuel n : Nat) (cur : sqlite3_vtab_cursor_traildb)
    (h : traildbEof cur = 1) : scan_rows db fuel (n + 1) cur = some [] := by
  simp only [scan_rows, h]; rfl

theorem to_int64_of_lt (n : Nat) (h : n < 2 ^ 63) : to_int64 n = (n : Int) := by
  have h1 : n % 2 ^ 64 = n := Nat.mod_eq_of_lt (by omega)
  simp only [to_int64, h1, h, if_true]

/-! ## The scan: claims C1 to C5 -/

/-- C1: for a store of T trails (T a `uint64_t` value) holding E events (E at
most 2^63, the range of `sqlite_int64`), every trail positioning succeeding, the
scan open, filter, then (row, next) until eof completes once the fuel exceeds
T + E, presents exactly E rows, and `traildbRowId` reports `SQLITE_OK` and the
identity j for the j-th presented row: the identities are 0, 1, ..., E-1. -/
theorem full_scan_row_ids (db : tdb) (hT : tdb_num_trails db < 2 ^ 64)
    (hE : tdb_num_events db ≤ 2 ^ 63)
    (herr : ∀ i, i < tdb_num_trails db → db.trail_error i = false)
    (fuel : Nat) (hfuel : tdb_num_trails db + tdb_num_events db < fuel) :
    ∃ rows, full_scan db fuel = some rows ∧ rows.length = tdb_num_events db ∧
      rows.map traildbRowId
        = (List.range (tdb_num_events db)).map (fun (j : Nat) => (SQLITE_OK, (j : Int))) := by
  have hlen := store_rows_length db
  rw [← rows_from_eq_store_rows] at hlen
  obtain ⟨rows, hscan, hmap, hids⟩ := full_scan_spec db hT herr fuel (by rw [hlen]; exact hfuel)
  have hl : rows.length = tdb_num_events db := by
    have := congrArg List.length hmap
    simpa [hlen] using this
  refine ⟨rows, hscan, hl, ?_⟩
  rw [hlen] at hids
  apply List.ext_getElem
  · simp [hl]
  · intro j h1 h2
    have hj : j < tdb_num_events db := by simpa using h2
    have := congrArg (fun l => l.get? j) hids
    simp only [List.get?_eq_getElem?, List.getElem?_map, List.getElem?_range hj,
      List.getElem?_eq_getElem (hl ▸ hj), Option.map_some', Option.some.injEq] at this
    have hjU : j % U64 = j := Nat.mod_eq_of_lt (by unfold U64; omega)
    rw [hjU] at this
    simp only [List.getElem_map, List.getElem_range, traildbRowId, Prod.mk.injEq, true_and]
    have h64 : to_int64 rows[j].row_idx = to_int64 (rows[j].row_idx % U64) := by
      simp only [to_int64, U64, Nat.mod_mod]
    rw [h64, this, to_int64_of_lt j (by omega)]

/-- Witness of C1 on the three-trail example store. -/
theorem full_scan_row_ids_witness :
    (tdb_num_trails example_store < 2 ^ 64 ∧ tdb_num_events example_store ≤ 2 ^ 63 ∧
      (∀ i, i < tdb_num_trails example_store → example_store.trail_error i = false) ∧
      tdb_num_trails example_store + tdb_num_events example_store < 7) ∧
    ∃ rows, full_scan example_store 7 = some rows ∧ rows.length = tdb_num_events example_store ∧
      rows.map traildbRowId
        = (List.range (tdb_num_events example_store)).map (fun (j : Nat) => (SQLITE_OK, (j : Int))) :=
  ⟨⟨by decide, by decide, fun _ _ => rfl, by decide⟩,
   full_scan_row_ids example_store (by decide) (by decide) (fun _ _ => rfl) 7 (by decide)⟩

/-- C2: in a full scan (every trail positioning succeeding, T a `uint64_t`
value, fuel above T + E) the (trail_id, current event) pairs of the presented
rows are the events of trail 0, then trail 1, ..., each paired with the ordinal
of its trail, empty trails contributing nothing; every row has a current event
that lies in the trail numbered by the row's trail_id, column 0 of the row is
the hex rendering of that trail's identifier, reported with length 32 and 32
characters long, and rows of one trail have the same column 0. -/
theorem full_scan_rows_in_trail_order (db : tdb) (hT : tdb_num_trails db < 2 ^ 64)
    (herr : ∀ i, i < tdb_num_trails db → db.trail_error i = false)
    (fuel : Nat) (hfuel : tdb_num_trails db + tdb_num_events db < fuel) :
    ∃ rows, full_scan db fuel = some rows ∧
      rows.map (fun c => (c.trail_id, c.event))
        = (store_rows db).map (fun p => (p.1, some p.2)) ∧
      (∀ c ∈ rows, ∃ e, c.event = some e ∧
        (∃ h : c.trail_id < db.trails.length, e ∈ db.trails[c.trail_id]) ∧
        traildbColumn db c 0
          = some (SQLITE_OK, some (.text (tdb_uuid_hex (db.uuid c.trail_id)) 32)) ∧
        (tdb_uuid_hex (db.uuid c.trail_id)).length = 32) ∧
      (∀ c ∈ rows, ∀ d ∈ rows, c.trail_id = d.trail_id →
        traildbColumn db c 0 = traildbColumn db d 0) := by
  have hlen := store_rows_length db
  rw [← rows_from_eq_store_rows] at hlen
  obtain ⟨rows, hscan, hmap, _⟩ := full_scan_spec db hT herr fuel (by rw [hlen]; exact hfuel)
  have hrow : ∀ c ∈ rows, ∃ e, c.event = some e ∧
      (∃ h : c.trail_id < db.trails.length, e ∈ db.trails[c.trail_id]) ∧
      traildbColumn db c 0
        = some (SQLITE_OK, some (.text (tdb_uuid_hex (db.uuid c.trail_id)) 32)) ∧
      (tdb_uuid_hex (db.uuid c.trail_id)).length = 32 := by
    intro c hc
    have hmem : (c.trail_id, c.event) ∈ rows.map (fun c => (c.trail_id, c.event)) :=
      List.mem_map_of_mem _ hc
    rw [hmap, List.mem_map] at hmem
    obtain ⟨p, hp, hpc⟩ := hmem
    obtain ⟨i, hi, hp1, hp2⟩ := rows_from_mem db.trails 0 p hp
    have h1 : c.trail_id = i := by
      have := congrArg Prod.fst hpc; simp only at this; omega
    have h2 : c.event = some p.2 := (congrArg Prod.snd hpc).symm
    refine ⟨p.2, h2, ⟨h1 ▸ hi, by subst h1; exact hp2⟩, ?_, tdb_uuid_hex_length _⟩
    have hlt : c.trail_id < tdb_num_trails db := h1 ▸ hi
    simp only [traildbColumn, h2, if_true, tdb_get_uuid, hlt]
  refine ⟨rows, hscan, by rw [hmap, rows_from_eq_store_rows], hrow, ?_⟩
  intro c hc d hd hcd
  obtain ⟨_, _, _, h1, _⟩ := hrow c hc
  obtain ⟨_, _, _, h2, _⟩ := hrow d hd
  rw [h1, h2, hcd]

/-- Witness of C2 on the three-trail example store. -/
theorem full_scan_rows_in_trail_order_witness :
    (tdb_num_trails example_store < 2 ^ 64 ∧
      (∀ i, i < tdb_num_trails example_store → example_store.trail_error i = false) ∧
      tdb_num_trails example_store + tdb_num_events example_store < 7) ∧
    ∃ rows, full_scan example_store 7 = some rows ∧
      rows.map (fun c => (c.trail_id, c.event))
        = (store_rows example_store).map (fun p => (p.1, some p.2)) ∧
      (∀ c ∈ rows, ∃ e, c.event = some e ∧
        (∃ h : c.trail_id < example_store.trails.length, e ∈ example_store.trails[c.trail_id]) ∧
        traildbColumn example_store c 0
          = some (SQLITE_OK, some (.text (tdb_uuid_hex (example_store.uuid c.trail_id)) 32)) ∧
        (tdb_uuid_hex (example_store.uuid c.trail_id)).length = 32) ∧
      (∀ c ∈ rows, ∀ d ∈ rows, c.trail_id = d.trail_id →
        traildbColumn example_store c 0 = traildbColumn example_store d 0) :=
  ⟨⟨by decide, fun _ _ => rfl, by decide⟩,
   full_scan_rows_in_trail_order example_store (by decide) (fun _ _ => rfl) 7 (by decide)⟩

/-- C3, the code at the failing inputs: on the store of two one-event trails
the first full scan presents (trail 0, event 10, id 0) and (trail 1, event 20,
id 1); a second `traildbFilter` after the scan reached eof leaves the cursor at
eof and presents no row, and a second `traildbFilter` after one `traildbNext`
presents the single row (trail 1, event 10, id 0): `trail_id` is not reset. -/
theorem refilter_keeps_trail_id :
    (full_scan two_trail_store 5).map (fun rows => rows.map row_view)
      = some [(0, some ⟨10, []⟩, 0), (1, some ⟨20, []⟩, 1)] ∧
    (refilter_scan two_trail_store 5 2).map (fun rows => rows.map row_view) = some [] ∧
    (refilter_scan two_trail_store 5 1).map (fun rows => rows.map row_view)
      = some [(1, some ⟨10, []⟩, 0)] :=
  ⟨by decide, by decide, by decide⟩

/-- C4: for a store with zero trails `traildbOpenCursor` (its two allocations
succeeding) and `traildbFilter` return `SQLITE_OK`, `traildbEof` is true right
after them and after any number of `traildbNext` calls, each of which returns
`SQLITE_OK`, and the row loop presents zero rows. -/
theorem empty_store_scan (db : tdb) (h0 : tdb_num_trails db = 0) (fuel : Nat) :
    ∃ cur, traildbOpenCursor db true true = (SQLITE_OK, some cur) ∧
      traildbFilter db fuel cur = some (SQLITE_OK, cur) ∧ traildbEof cur = 1 ∧
      (∀ n, ∃ cur1, next_calls db fuel n cur = some cur1 ∧ traildbEof cur1 = 1) ∧
      (∀ n, scan_rows db fuel (n + 1) cur = some []) ∧
      full_scan db (fuel + 1) = some [] := by
  have hopen : traildbOpenCursor db true true
      = (SQLITE_OK, some { cursor := [], event := none, empty_traildb := true, row_idx := 0,
                           trail_id := 0, total_trails := tdb_num_trails db }) := by
    simp only [traildbOpenCursor, h0, Bool.not_true, Bool.false_eq_true, if_false, if_true]
  have hfilter : ∀ f, traildbFilter db f
      { cursor := [], event := none, empty_traildb := true, row_idx := 0,
        trail_id := 0, total_trails := tdb_num_trails db }
      = some (SQLITE_OK, { cursor := [], event := none, empty_traildb := true, row_idx := 0,
                           trail_id := 0, total_trails := tdb_num_trails db }) := by
    intro f; simp only [traildbFilter, if_true]
  have heof : traildbEof { cursor := [], event := none, empty_traildb := true, row_idx := 0,
                           trail_id := 0, total_trails := tdb_num_trails db } = 1 := by
    simp only [traildbEof, true_or, if_true]
  refine ⟨_, hopen, hfilter fuel, heof, ?_, fun n => scan_rows_of_eof db fuel n _ heof, ?_⟩
  · intro n
    refine ⟨_, ?_, heof⟩
    induction n with
    | zero => rfl
    | succ n ih =>
      simp only [next_calls, traildbNext, true_or, if_true]
      exact ih
  · simp only [full_scan, hopen, hfilter, if_true]
    exact scan_rows_of_eof db _ fuel _ heof

/-- Witness of C4 on a store without trails. -/
theorem empty_store_scan_witness :
    tdb_num_trails { example_store with trails := [] } = 0 ∧
    ∃ cur, traildbOpenCursor { example_store with trails := [] } true true
        = (SQLITE_OK, some cur) ∧
      traildbFilter { example_store with trails := [] } 3 cur = some (SQLITE_OK, cur) ∧
      traildbEof cur = 1 ∧
      (∀ n, ∃ cur1, next_calls { example_store with trails := [] } 3 n cur = some cur1 ∧
        traildbEof cur1 = 1) ∧
      (∀ n, scan_rows { example_store with trails := [] } 3 (n + 1) cur = some []) ∧
      full_scan { example_store with trails := [] } (3 + 1) = some [] :=
  ⟨rfl, empty_store_scan { example_store with trails := [] } rfl 3⟩

/-- C5: for a store with T > 0 trails (T a `uint64_t` value), all without
events, every trail positioning succeeding, `traildbFilter` on the freshly
opened cursor returns `SQLITE_OK` once the fuel reaches T and leaves
`traildbEof` true, and the scan presents exactly zero rows. -/
theorem all_trails_empty_scan (db : tdb) (hT : tdb_num_trails db < 2 ^ 64)
    (hpos : 0 < tdb_num_trails db) (hempty : ∀ t ∈ db.trails, t = [])
    (herr : ∀ i, i < tdb_num_trails db → db.trail_error i = false)
    (fuel : Nat) (hfuel : tdb_num_trails db ≤ fuel) :
    ∃ cur cur1, traildbOpenCursor db true true = (SQLITE_OK, some cur) ∧
      traildbFilter db fuel cur = some (SQLITE_OK, cur1) ∧ traildbEof cur1 = 1 ∧
      full_scan db fuel = some [] := by
  obtain ⟨cur, hopen, htot, hid, hrow, _, hemp⟩ := traildbOpenCursor_ok db herr
  obtain ⟨cur1, hfilter, hat, _⟩ :=
    traildbFilter_first db hT herr fuel hfuel cur htot hid hrow hemp
  rw [rows_from_all_empty db.trails hempty 0] at hat
  have heof := traildbEof_of_at_rows_nil db cur1 hat
  refine ⟨cur, cur1, hopen, hfilter, heof, ?_⟩
  obtain ⟨m, rfl⟩ : ∃ m, fuel = m + 1 := ⟨fuel - 1, by omega⟩
  simp only [full_scan, hopen, hfilter, if_true]
  exact scan_rows_of_eof db _ m cur1 heof

/-- Witness of C5 on a store of two empty trails. -/
theorem all_trails_empty_scan_witness :
    (tdb_num_trails { example_store with trails := [[], []] } < 2 ^ 64 ∧
      0 < tdb_num_trails { example_store with trails := [[], []] } ∧
      (∀ t ∈ ({ example_store with trails := [[], []] } : tdb).trails, t = []) ∧
      (∀ i, i < tdb_num_trails { example_store with trails := [[], []] } →
        ({ example_store with trails := [[], []] } : tdb).trail_error i = false) ∧
      tdb_num_trails { example_store with trails := [[], []] } ≤ 2) ∧
    ∃ cur cur1, traildbOpenCursor { example_store with trails := [[], []] } true true
        = (SQLITE_OK, some cur) ∧
      traildbFilter { example_store with trails := [[], []] } 2 cur = some (SQLITE_OK, cur1) ∧
      traildbEof cur1 = 1 ∧
      full_scan { example_store with trails := [[], []] } 2 = some [] :=
  ⟨⟨by decide, by decide, by decide, fun _ _ => rfl, by decide⟩,
   all_trails_empty_scan { example_store with trails := [[], []] } (by decide) (by decide)
     (by decide) (fun _ _ => rfl) 2 (by decide)⟩

/-! ## Lemmas on `fileDequote` -/

theorem getElem?_at_length (pre : List Char) (x : Char) (t : List Char) :
    (pre ++ x :: t)[pre.length]? = some x := by
  induction pre with
  | nil => simp
  | cons a pre ih => simpa using ih

theorem getElem?_after_length (pre : List Char) (x y : Char) (t : List Char) :
    (pre ++ x :: y :: t)[pre.length + 1]? = some y := by
  induction pre with
  | nil => simp
  | cons a pre ih => simpa using ih

theorem set_at_length (out : List Char) (j c : Char) (t : List Char) :
    (out ++ j :: t).set out.length c = out ++ c :: t := by
  induction out with
  | nil => rfl
  | cons a out ih => simp

theorem fileDequote_loop_spec (q d : Char) (hd : d ≠ q) (rest : List Char) :
    ∀ (s out junk : List Char) (fuel : Nat), junk ≠ [] → s.length < fuel →
      ∃ junk2, junk2 ≠ [] ∧
        fileDequote_loop q fuel (out ++ junk ++ (esc q s ++ q :: d :: rest))
            (out.length + junk.length) out.length
          = .ret ((out ++ s) ++ junk2 ++ (q :: d :: rest), (out ++ s).length) := by
  intro s
  induction s with
  | nil =>
    intro out junk fuel hj hf
    obtain ⟨f, rfl⟩ : ∃ f, fuel = f + 1 := ⟨fuel - 1, by simp at hf; omega⟩
    refine ⟨junk, hj, ?_⟩
    have h1 := getElem?_at_length (out ++ junk) q (d :: rest)
    have h2 := getElem?_after_length (out ++ junk) q d rest
    rw [List.length_append] at h1 h2
    simp only [esc, List.flatMap_nil, List.nil_append, fileDequote_loop, h1, h2, if_true, hd,
      ne_eq, not_false_eq_true, List.append_nil]
  | cons c s ih =>
    intro out junk fuel hj hf
    obtain ⟨f, rfl⟩ : ∃ f, fuel = f + 1 := ⟨fuel - 1, by simp at hf; omega⟩
    obtain ⟨j, jr, rfl⟩ : ∃ j jr, junk = j :: jr := List.exists_cons_of_ne_nil hj
    have hlen : out.length < (out ++ j :: jr ++ (esc q (c :: s) ++ q :: d :: rest)).length := by
      simp only [List.length_append, List.length_cons]; omega
    by_cases hc : c = q
    · subst hc
      have hesc : esc c (c :: s) = c :: c :: esc c s := by
        simp only [esc, List.flatMap_cons, if_true, List.cons_append, List.nil_append]
      obtain ⟨junk2, hj2, hrun⟩ := ih (out ++ [c]) (jr ++ [c, c]) f (by simp)
        (by simpa using hf)
      refine ⟨junk2, hj2, ?_⟩
      have h1 := getElem?_at_length (out ++ j :: jr) c (c :: (esc c s ++ c :: d :: rest))
      have h2 := getElem?_after_length (out ++ j :: jr) c c (esc c s ++ c :: d :: rest)
      rw [List.length_append] at h1 h2
      have hset : (out ++ j :: jr ++ (c :: c :: (esc c s ++ c :: d :: rest))).set out.length c
          = out ++ [c] ++ (jr ++ [c, c]) ++ (esc c s ++ c :: d :: rest) := by
        rw [List.append_assoc, List.cons_append, set_at_length]
        simp only [List.append_assoc, List.cons_append, List.nil_append]
      rw [hesc] at hlen ⊢
      simp only [List.cons_append] at hlen h1 h2 ⊢
      simp only [fileDequote_loop, h1, h2, if_true, ne_eq, not_true_eq_false, if_false, hlen]
      simp only [List.cons_append] at hset
      rw [hset]
      have e1 : out.length + (j :: jr).length + 1 + 1
          = (out ++ [c]).length + (jr ++ [c, c]).length := by
        simp only [List.length_append, List.length_cons, List.length_nil]; omega
      have e2 : out.length + 1 = (out ++ [c]).length := by simp
      rw [e1, e2]
      simpa only [List.append_assoc, List.cons_append, List.nil_append] using hrun
    · have hesc : esc q (c :: s) = c :: esc q s := by
        simp only [esc, List.flatMap_cons, hc, if_false, List.cons_append, List.nil_append]
      obtain ⟨junk2, hj2, hrun⟩ := ih (out ++ [c]) (jr ++ [c]) f (by simp)
        (by simpa using hf)
      refine ⟨junk2, hj2, ?_⟩
      have h1 := getElem?_at_length (out ++ j :: jr) c (esc q s ++ q :: d :: rest)
      rw [List.length_append] at h1
      have hset : (out ++ j :: jr ++ (c :: (esc q s ++ q :: d :: rest))).set out.length c
          = out ++ [c] ++ (jr ++ [c]) ++ (esc q s ++ q :: d :: rest) := by
        rw [List.append_assoc, List.cons_append, set_at_length]
        simp only [List.append_assoc, List.cons_append, List.nil_append]
      rw [hesc] at hlen ⊢
      simp only [List.cons_append] at hlen h1 ⊢
      simp only [fileDequote_loop, h1, hc, if_false, hlen, if_true]
      simp only [List.cons_append] at hset
      rw [hset]
      have e1 : out.length + (j :: jr).length + 1
          = (out ++ [c]).length + (jr ++ [c]).length := by
        simp only [List.length_append, List.length_cons, List.length_nil]; omega
      have e2 : out.length + 1 = (out ++ [c]).length := by simp
      rw [e1, e2]
      simpa only [List.append_assoc, List.cons_append, List.nil_append] using hrun

theorem c_string_append_nul (s t : List Char) (hs : NUL ∉ s) : c_string (s ++ NUL :: t) = s := by
  induction s with
  | nil => simp [c_string]
  | cons a s ih =>
    have ha : a ≠ NUL := fun h => hs (h ▸ List.mem_cons_self _ _)
    have := ih (fun h => hs (List.mem_cons_of_mem _ h))
    have hb : (a != NUL) = true := by simpa using ha
    simp only [c_string] at this ⊢
    rw [List.cons_append, List.takeWhile_cons, hb]
    simp only [if_true, this]

/-- C6: for every string `s` without NUL, every opening delimiter `q` among the
double quote, the single quote, the backtick and the opening bracket, with its
closing delimiter `closing q` (the closing bracket for the bracket, `q` itself
otherwise), and every tail `r` not beginning with the closing delimiter,
`fileDequote` run with more fuel than `s` has characters on the NUL-terminated
buffer `q ++ esc s ++ closing q ++ r` returns normally with a buffer whose C
string is exactly `s`. -/
theorem fileDequote_round_trip (s r : List Char) (q : Char) (hs : NUL ∉ s)
    (hq : q = DQUOTE ∨ q = SQUOTE ∨ q = BTICK ∨ q = LBRACKET)
    (hr : r.head? ≠ some (closing q)) (fuel : Nat) (hfuel : s.length < fuel) :
    ∃ buf, fileDequote fuel (q :: (esc (closing q) s ++ closing q :: (r ++ [NUL]))) = .ret buf ∧
      c_string buf = s := by
  have hnul : NUL ≠ closing q := by
    rcases hq with rfl | rfl | rfl | rfl <;> decide
  obtain ⟨d, rest, hd, hrest⟩ : ∃ d rest, d ≠ closing q ∧ r ++ [NUL] = d :: rest := by
    cases r with
    | nil => exact ⟨NUL, [], hnul, rfl⟩
    | cons a r => exact ⟨a, r ++ [NUL], fun h => hr (by rw [h]; rfl), rfl⟩
  obtain ⟨junk2, hj2, hrun⟩ :=
    fileDequote_loop_spec (closing q) d hd rest s [] [q] fuel (by simp) hfuel
  obtain ⟨j, jr, rfl⟩ : ∃ j jr, junk2 = j :: jr := List.exists_cons_of_ne_nil hj2
  simp only [List.nil_append, List.length_nil, List.length_cons, Nat.zero_add,
    List.cons_append] at hrun
  refine ⟨s ++ NUL :: (jr ++ closing q :: d :: rest), ?_, c_string_append_nul s _ hs⟩
  have hlen : s.length < (s ++ j :: (jr ++ closing q :: d :: rest)).length := by
    simp only [List.length_append, List.length_cons]; omega
  rw [hrest]
  simp only [fileDequote, List.getElem?_cons_zero, hq, if_true]
  have hcl : (if q = LBRACKET then RBRACKET else q) = closing q := rfl
  rw [hcl, hrun]
  have happ : s ++ j :: jr ++ closing q :: d :: rest = s ++ j :: (jr ++ closing q :: d :: rest) := by
    simp only [List.append_assoc, List.cons_append]
  simp only [happ, hlen, if_true, set_at_length]

/-- Witness of C6: the double-quoted `./store` yields `./store`, and the
backtick-quoted text a, two backticks, b yields a, one backtick, b. -/
theorem fileDequote_round_trip_witness :
    ((NUL ∉ "./store".toList ∧ (DQUOTE = DQUOTE ∨ DQUOTE = SQUOTE ∨ DQUOTE = BTICK ∨
        DQUOTE = LBRACKET) ∧ ([] : List Char).head? ≠ some (closing DQUOTE) ∧
        "./store".toList.length < 8) ∧
      DQUOTE :: (esc (closing DQUOTE) "./store".toList ++ closing DQUOTE :: ([] ++ [NUL]))
        = DQUOTE :: "./store".toList ++ [DQUOTE, NUL] ∧
      ∃ buf, fileDequote 8
          (DQUOTE :: (esc (closing DQUOTE) "./store".toList ++ closing DQUOTE :: ([] ++ [NUL])))
          = .ret buf ∧ c_string buf = "./store".toList) ∧
    ((NUL ∉ ['a', BTICK, 'b'] ∧ (BTICK = DQUOTE ∨ BTICK = SQUOTE ∨ BTICK = BTICK ∨
        BTICK = LBRACKET) ∧ ([] : List Char).head? ≠ some (closing BTICK) ∧
        ['a', BTICK, 'b'].length < 4) ∧
      BTICK :: (esc (closing BTICK) ['a', BTICK, 'b'] ++ closing BTICK :: ([] ++ [NUL]))
        = [BTICK, 'a', BTICK, BTICK, 'b', BTICK, NUL] ∧
      ∃ buf, fileDequote 4
          (BTICK :: (esc (closing BTICK) ['a', BTICK, 'b'] ++ closing BTICK :: ([] ++ [NUL])))
          = .ret buf ∧ c_string buf = ['a', BTICK, 'b']) :=
  ⟨⟨⟨by decide, Or.inl rfl, by decide, by decide⟩, by decide,
     fileDequote_round_trip "./store".toList [] DQUOTE (by decide) (Or.inl rfl) (by decide) 8
       (by decide)⟩,
   ⟨⟨by decide, Or.inr (Or.inr (Or.inl rfl)), by decide, by decide⟩, by decide,
     fileDequote_round_trip ['a', BTICK, 'b'] [] BTICK (by decide)
       (Or.inr (Or.inr (Or.inl rfl))) (by decide) 4 (by decide)⟩⟩

/-- C7: on the buffer of a NUL-terminated string (the empty one included) whose
first character is none of the double quote, the single quote, the backtick and
the opening bracket, `fileDequote` returns with the buffer unchanged, whatever
the fuel. -/
theorem fileDequote_without_delimiter (s : List Char) (fuel : Nat)
    (h : ∀ q, (s ++ [NUL])[0]? = some q →
      q ≠ DQUOTE ∧ q ≠ SQUOTE ∧ q ≠ BTICK ∧ q ≠ LBRACKET) :
    fileDequote fuel (s ++ [NUL]) = .ret (s ++ [NUL]) := by
  obtain ⟨q, t, hqt⟩ : ∃ q t, s ++ [NUL] = q :: t := by
    cases s with
    | nil => exact ⟨NUL, [], rfl⟩
    | cons a s => exact ⟨a, s ++ [NUL], rfl⟩
  rw [hqt] at h ⊢
  obtain ⟨h1, h2, h3, h4⟩ := h q (by simp)
  simp only [fileDequote, List.getElem?_cons_zero, h1, h2, h3, h4, or_self, if_false]

/-- Witness of C7: the unquoted `./store` and the empty string are unchanged. -/
theorem fileDequote_without_delimiter_witness :
    ((∀ q, ("./store".toList ++ [NUL])[0]? = some q →
        q ≠ DQUOTE ∧ q ≠ SQUOTE ∧ q ≠ BTICK ∧ q ≠ LBRACKET) ∧
      fileDequote 0 ("./store".toList ++ [NUL]) = .ret ("./store".toList ++ [NUL])) ∧
    ((∀ q, (([] : List Char) ++ [NUL])[0]? = some q →
        q ≠ DQUOTE ∧ q ≠ SQUOTE ∧ q ≠ BTICK ∧ q ≠ LBRACKET) ∧
      fileDequote 0 ([] ++ [NUL]) = .ret ([] ++ [NUL])) :=
  ⟨⟨fun q hq => by cases hq; decide,
    fileDequote_without_delimiter "./store".toList 0 (fun q hq => by cases hq; decide)⟩,
   ⟨fun q hq => by cases hq; decide,
    fileDequote_without_delimiter [] 0 (fun q hq => by cases hq; decide)⟩⟩

/-! ## Lemmas on the schema declaration -/

theorem not_nul_mem_c_string (z : List Char) : NUL ∉ c_string z := by
  intro h
  have := List.mem_takeWhile_imp h
  simp at this

theorem getD_at_length (done : List (List Char)) (z : List Char) (todo : List (List Char)) :
    (done ++ z :: todo).getD done.length [] = z := by
  induction done with
  | nil => rfl
  | cons a done ih => simpa using ih

theorem traildbConnect_names_ok (host : Host) (t : tdb) (halloc : ∀ o, host.alloc_ok o = true) :
    ∀ (todo done : List (List Char)) (pre : List (Option (List Char))) (total : Nat)
      (tr : List Effect), t.ofields = done ++ todo → pre.length = done.length + 2 →
      traildbConnect_names host t todo.length done.length
          (pre ++ List.replicate todo.length none) total tr
        = .ok (pre ++ todo.map (fun z => some (c_string z)),
               total + ((todo.map (fun z => (c_string z).length + 2)).sum),
               tr ++ (List.range' (done.length + 2) todo.length).map
                 (fun i => Effect.alloc (.field_str i))) := by
  intro todo
  induction todo with
  | nil => intro done pre total tr _ _; simp [traildbConnect_names]
  | cons z todo ih =>
    intro done pre total tr hsplit hpre
    have hname : tdb_get_field_name t (done.length + 1) = z := by
      simp only [tdb_get_field_name, hsplit, Nat.add_one_ne_zero, if_false, Nat.add_sub_cancel]
      exact getD_at_length done z todo
    have hset : (pre ++ List.replicate (todo.length + 1) none).set (done.length + 2)
        (some (c_string z)) = (pre ++ [some (c_string z)]) ++ List.replicate todo.length none := by
      rw [← hpre, List.replicate_succ, List.set_append_right _ _ (Nat.le_refl _)]
      simp
    have := ih (done ++ [z]) (pre ++ [some (c_string z)]) (total + ((c_string z).length + 2))
      (tr ++ [.alloc (.field_str (done.length + 2))]) (by simp [hsplit]) (by simp [hpre])
    simp only [List.length_cons, traildbConnect_names, halloc, if_true, hname, hset]
    simp only [List.length_append, List.length_cons, List.length_nil, Nat.zero_add] at this
    rw [this]
    simp [List.range'_succ, Nat.add_assoc, Nat.add_comm 1 2]

theorem drop_append_replicate (w : List Char) (m k : Nat) (c : Char) :
    (w ++ List.replicate m c).drop (w.length + k) = List.replicate (m - k) c := by
  induction w with
  | nil => simp
  | cons a w ih => simp [Nat.succ_add, ih]

theorem take_append_replicate (w : List Char) (m : Nat) (c : Char) :
    (w ++ List.replicate m c).take w.length = w := by
  induction w with
  | nil => simp
  | cons a w ih => simp

theorem get?_at_length (pre : List (Option (List Char))) (x : Option (List Char))
    (rest : List (Option (List Char))) : (pre ++ x :: rest).get? pre.length = some x := by
  induction pre with
  | nil => rfl
  | cons a pre ih => simpa using ih

theorem traildbConnect_concat_rest :
    ∀ (todo : List (List Char)) (pre : List (Option (List Char))) (written : List Char)
      (m : Nat), 2 < pre.length → (todo.flatMap (fun z => ',' :: z)).length ≤ m →
      traildbConnect_concat (pre ++ todo.map some) todo.length pre.length
          (written ++ List.replicate m NUL) written.length
        = .ret (written ++ todo.flatMap (fun z => ',' :: z)
                  ++ List.replicate (m - (todo.flatMap (fun z => ',' :: z)).length) NUL,
                written.length + (todo.flatMap (fun z => ',' :: z)).length) := by
  intro todo
  induction todo with
  | nil => intro pre written m _ _; simp [traildbConnect_concat]
  | cons z todo ih =>
    intro pre written m hpre hm
    simp only [List.flatMap_cons, List.length_append, List.length_cons] at hm
    obtain ⟨m1, rfl⟩ : ∃ m1, m = m1 + 1 := ⟨m - 1, by omega⟩
    have hlt : written.length < (written ++ List.replicate (m1 + 1) NUL).length := by
      simp only [List.length_append, List.length_replicate]; omega
    have hset : (written ++ List.replicate (m1 + 1) NUL).set written.length ','
        = (written ++ [',']) ++ List.replicate m1 NUL := by
      rw [List.replicate_succ, set_at_length]; simp
    have hget : (pre ++ List.map some (z :: todo)).get? pre.length = some (some z) :=
      get?_at_length pre (some z) (todo.map some)
    have hfit : written.length + 1 + z.length
        ≤ ((written ++ [',']) ++ List.replicate m1 NUL).length := by
      simp only [List.length_append, List.length_replicate, List.length_cons, List.length_nil]
      omega
    have hcur : written.length + 1 = (written ++ [',']).length := by simp
    have hbuf : ((written ++ [',']) ++ List.replicate m1 NUL).take (written.length + 1) ++ z
          ++ ((written ++ [',']) ++ List.replicate m1 NUL).drop (written.length + 1 + z.length)
        = (written ++ ',' :: z) ++ List.replicate (m1 - z.length) NUL := by
      rw [hcur, take_append_replicate, drop_append_replicate]; simp
    have := ih (pre ++ [some z]) (written ++ ',' :: z) (m1 - z.length)
      (by simp only [List.length_append, List.length_cons, List.length_nil]; omega) (by omega)
    simp only [List.length_cons, traildbConnect_concat, hpre, if_true, hlt, hset, hget, hfit,
      hbuf]
    have e1 : pre ++ List.map some (z :: todo) = (pre ++ [some z]) ++ todo.map some := by simp
    have e2 : pre.length + 1 = (pre ++ [some z]).length := by simp
    have e3 : written.length + 1 + z.length = (written ++ ',' :: z).length := by
      simp only [List.length_append, List.length_cons]; omega
    rw [e1, e2, e3, this]
    simp only [List.flatMap_cons, List.length_append, List.length_cons, List.append_assoc,
      List.cons_append, Run.ret.injEq, Prod.mk.injEq]
    constructor
    · have e : m1 - z.length - (todo.flatMap fun z => ',' :: z).length
          = m1 + 1 - (z.length + (todo.flatMap fun z => ',' :: z).length + 1) := by omega
      rw [e]
    · omega

theorem intercalate_comma_cons (z : List Char) (rest : List (List Char)) :
    [','].intercalate (z :: rest) = z ++ rest.flatMap (fun y => ',' :: y) := by
  induction rest generalizing z with
  | nil => simp [List.intercalate]
  | cons y rest ih =>
    have := ih y
    simp only [List.intercalate, List.intersperse, List.flatten_cons] at this ⊢
    rw [this]; simp

theorem flatMap_comma_length (rest : List (List Char)) :
    (rest.flatMap (fun y => ',' :: y)).length = (rest.map (fun z => z.length + 1)).sum := by
  induction rest with
  | nil => rfl
  | cons y rest ih => simp [ih]; omega

theorem intercalate_comma_length_le (names : List (List Char)) :
    ([','].intercalate names).length ≤ (names.map (fun z => z.length + 2)).sum := by
  have hle : ∀ l : List (List Char),
      (l.map (fun z => z.length + 1)).sum ≤ (l.map (fun z => z.length + 2)).sum := by
    intro l
    induction l with
    | nil => simp
    | cons a l ih => simp only [List.map_cons, List.sum_cons]; omega
  cases names with
  | nil => simp [List.intercalate]
  | cons z rest =>
    rw [intercalate_comma_cons, List.length_append, flatMap_comma_length]
    have := hle rest
    simp only [List.map_cons, List.sum_cons]; omega

theorem not_nul_mem_intercalate (names : List (List Char)) (h : ∀ z ∈ names, NUL ∉ z) :
    NUL ∉ [','].intercalate names := by
  have hflat : ∀ l : List (List Char), (∀ z ∈ l, NUL ∉ z) →
      NUL ∉ l.flatMap (fun y => ',' :: y) := by
    intro l hl hmem
    rw [List.mem_flatMap] at hmem
    obtain ⟨y, hy, hmem⟩ := hmem
    rcases List.mem_cons.1 hmem with h1 | h1
    · exact absurd h1 (by decide)
    · exact hl y hy h1
  cases names with
  | nil => simp [List.intercalate]
  | cons z rest =>
    rw [intercalate_comma_cons, List.mem_append]
    rintro (h1 | h1)
    · exact h z (List.mem_cons_self _ _) h1
    · exact hflat rest (fun y hy => h y (List.mem_cons_of_mem _ hy)) h1

theorem traildbConnect_concat_ok (u ts : Option (List Char)) (names : List (List Char))
    (m : Nat) (hm : ([','].intercalate names).length ≤ m) :
    traildbConnect_concat ([u, ts] ++ names.map some) names.length 2 (List.replicate m NUL) 0
      = .ret ([','].intercalate names
                ++ List.replicate (m - ([','].intercalate names).length) NUL,
              ([','].intercalate names).length) := by
  cases names with
  | nil => simp [traildbConnect_concat, List.intercalate]
  | cons z rest =>
    rw [intercalate_comma_cons] at hm ⊢
    rw [List.length_append] at hm
    have hrest := traildbConnect_concat_rest rest [u, ts, some z] z (m - z.length)
      (by simp) (by omega)
    have hfit : 0 + z.length ≤ (List.replicate m NUL).length := by
      simp only [List.length_replicate]; omega
    have hbuf : (List.replicate m NUL).take 0 ++ z ++ (List.replicate m NUL).drop (0 + z.length)
        = z ++ List.replicate (m - z.length) NUL := by simp
    have harr : [u, ts] ++ List.map some (z :: rest) = [u, ts, some z] ++ rest.map some := by simp
    have hget : ([u, ts] ++ List.map some (z :: rest)).get? 2 = some (some z) := rfl
    simp only [List.length_cons, traildbConnect_concat, Nat.lt_irrefl, if_false, hget, hfit,
      if_true, hbuf]
    rw [harr]
    rw [Nat.zero_add]
    have hrest2 : traildbConnect_concat ([u, ts, some z] ++ List.map some rest) rest.length
        (2 + 1) (z ++ List.replicate (m - z.length) NUL) z.length = _ := hrest
    rw [hrest2]
    simp only [List.length_append, Run.ret.injEq, Prod.mk.injEq, and_true]
    have e : m - z.length - (rest.flatMap fun z => ',' :: z).length
        = m - (z.length + (rest.flatMap fun z => ',' :: z).length) := by omega
    rw [e]

theorem declared_append (a b : List Effect) : declared (a ++ b) = declared a ++ declared b := by
  simp [declared, List.filterMap_append]

theorem declared_nil : declared [] = [] := rfl

theorem declared_alloc (o : Obj) (l : List Effect) :
    declared (.alloc o :: l) = declared l := rfl

theorem declared_free (o : Obj) (l : List Effect) :
    declared (.free o :: l) = declared l := rfl

theorem declared_close (l : List Effect) : declared (.tdb_close :: l) = declared l := rfl

theorem declared_declare (x : List Char) (l : List Effect) :
    declared (.declare_vtab x :: l) = x :: declared l := rfl

theorem declared_eq_nil (l : List Effect) (h : ∀ e ∈ l, ∀ x, e ≠ .declare_vtab x) :
    declared l = [] := by
  induction l with
  | nil => rfl
  | cons e l ih =>
    have he := h e (List.mem_cons_self _ _)
    have hl := ih (fun e he => h e (List.mem_cons_of_mem _ he))
    cases e with
    | declare_vtab x => exact absurd rfl (he x)
    | _ => simpa [declared] using hl

theorem declared_free_field_strs (arr : List (Option (List Char))) :
    declared (free_field_strs arr) = [] := by
  apply declared_eq_nil
  intro e he x hx
  subst hx
  simp only [free_field_strs, List.mem_filterMap] at he
  obtain ⟨p, _, hp⟩ := he
  split at hp <;> simp at hp

theorem declared_allocs (l : List Nat) :
    declared (l.map (fun i => Effect.alloc (.field_str i))) = [] := by
  apply declared_eq_nil
  intro e he x hx
  subst hx
  simp at he

theorem read_c_string_padded (s : List Char) (k : Nat) (hs : NUL ∉ s) (hk : 0 < k) :
    read_c_string (s ++ List.replicate k NUL) = some s := by
  obtain ⟨k1, rfl⟩ : ∃ k1, k = k1 + 1 := ⟨k - 1, by omega⟩
  have hmem : NUL ∈ s ++ NUL :: List.replicate k1 NUL := by simp
  simp only [read_c_string, List.replicate_succ, hmem, if_true, c_string_append_nul s _ hs]

theorem traildbConnect_schema_ok (host : Host) (t : tdb) (tr : List Effect)
    (halloc : ∀ o, host.alloc_ok o = true) :
    ∃ r, traildbConnect_schema host t tr = .ret r ∧
      declared r.trace = declared tr ++
        ["CREATE TABLE t( uuid TEXT, timestamp INTEGER, ".toList
          ++ [','].intercalate (field_catalog t) ++ " );".toList] := by
  have harr : ((List.replicate (tdb_num_fields t + 1) (none : Option (List Char))).set 0
        (some "uuid".toList)).set 1 (some "timestamp".toList)
      = [some "uuid".toList, some "timestamp".toList] ++ List.replicate t.ofields.length none := by
    simp [tdb_num_fields, List.replicate_succ]
  have hnames := traildbConnect_names_ok host t halloc t.ofields []
    [some "uuid".toList, some "timestamp".toList] (0 + 6 + 11)
    (tr ++ [.alloc .fields_str] ++ [.alloc (.field_str 0)] ++ [.alloc (.field_str 1)])
    (by simp) (by simp)
  have hn1 : tdb_num_fields t - 1 = t.ofields.length := by simp [tdb_num_fields]
  have hn2 : tdb_num_fields t + 1 - 2 = (field_catalog t).length := by
    simp [tdb_num_fields, field_catalog]
  have hmap : t.ofields.map (fun z => some (c_string z)) = (field_catalog t).map some := by
    simp [field_catalog]
  have hsum : (t.ofields.map (fun z => (c_string z).length + 2)).sum
      = ((field_catalog t).map (fun z => z.length + 2)).sum := by
    simp only [field_catalog, List.map_map]; rfl
  have hle := intercalate_comma_length_le (field_catalog t)
  have hconcat := traildbConnect_concat_ok (some "uuid".toList) (some "timestamp".toList)
    (field_catalog t) (0 + 6 + 11 + ((field_catalog t).map (fun z => z.length + 2)).sum)
    (by omega)
  have hread := read_c_string_padded ([','].intercalate (field_catalog t))
    (0 + 6 + 11 + ((field_catalog t).map (fun z => z.length + 2)).sum
      - ([','].intercalate (field_catalog t)).length)
    (not_nul_mem_intercalate _ (by
      intro z hz
      simp only [field_catalog, List.mem_map] at hz
      obtain ⟨y, _, rfl⟩ := hz
      exact not_nul_mem_c_string y)) (by omega)
  rw [List.length_nil] at hnames
  rw [hmap, hsum] at hnames
  unfold traildbConnect_schema
  simp only [halloc, Bool.not_true, Bool.false_eq_true, if_false, harr, hn1, hnames, hn2,
    hconcat, hread]
  by_cases hrc : host.declare_rc ("CREATE TABLE t( uuid TEXT, timestamp INTEGER, ".toList
      ++ [','].intercalate (field_catalog t) ++ " );".toList) = SQLITE_OK
  · refine ⟨_, by rw [if_neg (not_not.2 hrc)], ?_⟩
    simp only [declared_append, declared_free_field_strs, declared_allocs, declared_alloc,
      declared_free, declared_declare, declared_nil, List.append_nil, List.nil_append]
  · refine ⟨_, by rw [if_pos hrc], ?_⟩
    simp only [declared_append, declared_free_field_strs, declared_allocs, declared_alloc,
      declared_free, declared_declare, declared_close, declared_nil, List.append_nil,
      List.nil_append]

theorem traildbConnect_open_trace (host : Host) (fuel : Nat) (argc : Int)
    (argv : List (List Char)) (t : tdb) (tr : List Effect)
    (h : traildbConnect_open host fuel argc argv = .ret (.inr (t, tr))) :
    ∃ path, host.open_store path = .ok t ∧
      tr = [.tdb_init, .alloc .fname, .tdb_open path, .free .fname] := by
  unfold traildbConnect_open at h
  split at h
  · simp at h
  · split at h
    · simp at h
    · split at h
      · simp at h
      · split at h
        · simp at h
        · dsimp only at h
          split at h
          · simp at h
          · simp at h
          · split at h
            · simp at h
            · rename_i path _
              split at h
              · simp at h
              · rename_i t1 hopen
                simp only [Run.ret.injEq, Sum.inr.injEq, Prod.mk.injEq] at h
                exact ⟨path, h.1 ▸ hopen, h.2 ▸ rfl⟩

/-- C8: when lines 190-221 of `traildbConnect` opened the store `t` and no
allocation fails, the function returns and the one text it hands to
`sqlite3_declare_vtab` is `CREATE TABLE t( uuid TEXT, timestamp INTEGER, `
followed by the names of the field catalog in catalog order, each copied
character for character, joined by single commas, followed by ` );`.  This
holds for every catalog, the non-empty ones in particular. -/
theorem traildbConnect_declares_schema (host : Host) (fuel : Nat) (argc : Int)
    (argv : List (List Char)) (t : tdb) (tr : List Effect)
    (hopen : traildbConnect_open host fuel argc argv = .ret (.inr (t, tr)))
    (halloc : ∀ o, host.alloc_ok o = true) :
    ∃ r, traildbConnect host fuel argc argv = .ret r ∧
      declared r.trace =
        ["CREATE TABLE t( uuid TEXT, timestamp INTEGER, ".toList
          ++ [','].intercalate (field_catalog t) ++ " );".toList] := by
  obtain ⟨path, _, htr⟩ := traildbConnect_open_trace host fuel argc argv t tr hopen
  obtain ⟨r, hr, hdecl⟩ := traildbConnect_schema_ok host t tr halloc
  refine ⟨r, by simp only [traildbConnect, hopen, hr], ?_⟩
  rw [hdecl, htr]; rfl

/-- Witness of C8: the store with catalog a, b is declared as
`CREATE TABLE t( uuid TEXT, timestamp INTEGER, a,b );`. -/
theorem traildbConnect_declares_schema_witness :
    (traildbConnect_open (good_host example_store) 1 4 example_argv
        = .ret (.inr (example_store,
            [.tdb_init, .alloc .fname, .tdb_open "./store".toList, .free .fname])) ∧
      (∀ o, (good_host example_store).alloc_ok o = true)) ∧
    field_catalog example_store = ["a".toList, "b".toList] ∧
    "CREATE TABLE t( uuid TEXT, timestamp INTEGER, ".toList
        ++ [','].intercalate (field_catalog example_store) ++ " );".toList
      = "CREATE TABLE t( uuid TEXT, timestamp INTEGER, a,b );".toList ∧
    ∃ r, traildbConnect (good_host example_store) 1 4 example_argv = .ret r ∧
      declared r.trace =
        ["CREATE TABLE t( uuid TEXT, timestamp INTEGER, ".toList
          ++ [','].intercalate (field_catalog example_store) ++ " );".toList] :=
  ⟨⟨rfl, fun _ => rfl⟩, by decide, by decide,
   traildbConnect_declares_schema (good_host example_store) 1 4 example_argv example_store
     [.tdb_init, .alloc .fname, .tdb_open "./store".toList, .free .fname] rfl (fun _ => rfl)⟩

/-- C9, the code at the failing input: for a store that has only its timestamp
field (empty catalog), with nothing failing, `traildbConnect` declares
`CREATE TABLE t( uuid TEXT, timestamp INTEGER,  );`, whose column list ends in
a comma followed by blanks only. -/
theorem traildbConnect_empty_catalog_trailing_comma :
    (match traildbConnect (good_host { example_store with ofields := [] }) 1 4 example_argv with
      | .ret r => some (declared r.trace)
      | _ => none)
      = some ["CREATE TABLE t( uuid TEXT, timestamp INTEGER,  );".toList] ∧
    trailing_comma (column_list "CREATE TABLE t( uuid TEXT, timestamp INTEGER,  );".toList)
      = true :=
  ⟨by decide, by decide⟩

theorem traildbNext_body_step (db : tdb) (s : sqlite3_vtab_cursor_traildb)
    (hU : s.total_trails < U64) (hlt : s.trail_id < s.total_trails) :
    match traildbNext_body db s with
    | .ok s1 => s1.total_trails = s.total_trails ∧
        ((s1.event ≠ none ∧ s1.trail_id = s.trail_id) ∨
         (s1.event = none ∧ s1.trail_id = s.trail_id + 1))
    | .error (rc, s1) => rc = SQLITE_ERROR ∧ s1.total_trails = s.total_trails ∧
        s1.trail_id = s.trail_id + 1 ∧ s1.trail_id < s1.total_trails := by
  obtain ⟨cursor, event, empty, row_idx, k, total⟩ := s
  simp only at hU hlt
  have hmod : (k + 1) % U64 = k + 1 := Nat.mod_eq_of_lt (by omega)
  cases cursor with
  | nil =>
    by_cases hk : k + 1 < total
    · cases hg : tdb_get_trail db [] (k + 1) with
      | none =>
        simp [traildbNext_body, tdb_cursor_next, hmod, hk, hg]
      | some c =>
        simp [traildbNext_body, tdb_cursor_next, hmod, hk, hg]
    · simp [traildbNext_body, tdb_cursor_next, hmod, hk]
  | cons e rem =>
    simp [traildbNext_body, tdb_cursor_next]

theorem traildbNext_loop_terminates (db : tdb) :
    ∀ (fuel : Nat) (s : sqlite3_vtab_cursor_traildb), s.total_trails < U64 →
      s.trail_id < s.total_trails → s.total_trails - s.trail_id ≤ fuel →
      ∃ rc s1, traildbNext_loop db fuel s = some (rc, s1) ∧
        s1.total_trails = s.total_trails ∧ s.trail_id ≤ s1.trail_id ∧
        s1.trail_id ≤ s1.total_trails := by
  intro fuel
  induction fuel with
  | zero => intro s _ h1 h2; omega
  | succ fuel ih =>
    intro s hU hlt hfuel
    have hstep := traildbNext_body_step db s hU hlt
    cases hb : traildbNext_body db s with
    | error r =>
      obtain ⟨rc, s1⟩ := r
      rw [hb] at hstep
      obtain ⟨_, h1, h2, h3⟩ := hstep
      refine ⟨rc, s1, by simp only [traildbNext_loop, hb], h1, by omega, by omega⟩
    | ok s1 =>
      rw [hb] at hstep
      obtain ⟨h1, h2⟩ := hstep
      by_cases hc : s1.trail_id < s1.total_trails ∧ s1.event.isNone = true
      · have hid : s1.trail_id = s.trail_id + 1 := by
          rcases h2 with ⟨hne, _⟩ | ⟨_, hid⟩
          · exact absurd (Option.isNone_iff_eq_none.1 hc.2) hne
          · exact hid
        obtain ⟨rc, s2, hrun, g1, g2, g3⟩ := ih s1 (by omega) hc.1 (by omega)
        refine ⟨rc, s2, ?_, by omega, by omega, g3⟩
        simp only [traildbNext_loop, hb, hc, and_self, if_true]
        exact hrun
      · refine ⟨SQLITE_OK, { s1 with row_idx := (s1.row_idx + 1) % U64 }, ?_, h1, ?_, ?_⟩
        · simp only [traildbNext_loop, hb, hc, if_false]
        · rcases h2 with ⟨_, hid⟩ | ⟨_, hid⟩ <;> simp only [hid] <;> omega
        · simp only
          rcases h2 with ⟨_, hid⟩ | ⟨_, hid⟩ <;> omega

theorem get?_char_at_length (pre : List Char) (x : Char) (rest : List Char) :
    (pre ++ x :: rest).get? pre.length = some x := by
  induction pre with
  | nil => rfl
  | cons a pre ih => simpa using ih

theorem traildbConnect_names_cases (host : Host) (t : tdb) :
    ∀ (todo done : List (List Char)) (pre : List (Option (List Char))) (total : Nat)
      (tr : List Effect), t.ofields = done ++ todo → pre.length = done.length + 2 →
      traildbConnect_names host t todo.length done.length
          (pre ++ List.replicate todo.length none) total tr
        = .ok (pre ++ todo.map (fun z => some (c_string z)),
               total + ((todo.map (fun z => (c_string z).length + 2)).sum),
               tr ++ (List.range' (done.length + 2) todo.length).map
                 (fun i => Effect.alloc (.field_str i))) ∨
      ∃ k arr, k < todo.length ∧ host.alloc_ok (.field_str (done.length + 2 + k)) = false ∧
        traildbConnect_names host t todo.length done.length
            (pre ++ List.replicate todo.length none) total tr
          = .error (arr, tr ++ (List.range' (done.length + 2) k).map
                 (fun i => Effect.alloc (.field_str i))) := by
  intro todo
  induction todo with
  | nil => intro done pre total tr _ _; left; simp [traildbConnect_names]
  | cons z todo ih =>
    intro done pre total tr hsplit hpre
    by_cases hok : host.alloc_ok (.field_str (done.length + 2)) = true
    · have hname : tdb_get_field_name t (done.length + 1) = z := by
        simp only [tdb_get_field_name, hsplit, Nat.add_one_ne_zero, if_false,
          Nat.add_sub_cancel]
        exact getD_at_length done z todo
      have hset : (pre ++ List.replicate (todo.length + 1) none).set (done.length + 2)
          (some (c_string z))
          = (pre ++ [some (c_string z)]) ++ List.replicate todo.length none := by
        rw [← hpre, List.replicate_succ, List.set_append_right _ _ (Nat.le_refl _)]
        simp
      have := ih (done ++ [z]) (pre ++ [some (c_string z)]) (total + ((c_string z).length + 2))
        (tr ++ [.alloc (.field_str (done.length + 2))]) (by simp [hsplit]) (by simp [hpre])
      simp only [List.length_append, List.length_cons, List.length_nil, Nat.zero_add] at this
      rcases this with h | ⟨k, arr, hk, hfail, h⟩
      · left
        simp only [List.length_cons, traildbConnect_names, hok, if_true, hname, hset]
        rw [h]
        simp [List.range'_succ, Nat.add_assoc, Nat.add_comm 1 2]
      · right
        refine ⟨k + 1, arr, by simpa using hk, ?_, ?_⟩
        · have e : done.length + 2 + (k + 1) = done.length + 1 + 2 + k := by omega
          rw [e]; exact hfail
        · simp only [List.length_cons, traildbConnect_names, hok, if_true, hname, hset]
          rw [h]
          simp [List.range'_succ, Nat.add_assoc, Nat.add_comm 1 2]
    · right
      have hfalse : host.alloc_ok (.field_str (done.length + 2)) = false := by
        simpa using hok
      refine ⟨0, pre ++ List.replicate (todo.length + 1) none, by simp, by simpa using hfalse, ?_⟩
      simp [traildbConnect_names, hfalse]

theorem traildbConnect_names_of_strings_ok (host : Host) (t : tdb)
    (halloc : ∀ i, host.alloc_ok (.field_str i) = true) (total : Nat) (tr : List Effect) :
    traildbConnect_names host t (tdb_num_fields t - 1) 0
        (((List.replicate (tdb_num_fields t + 1) (none : Option (List Char))).set 0
          (some "uuid".toList)).set 1 (some "timestamp".toList)) total tr
      = .ok ([some "uuid".toList, some "timestamp".toList] ++ (field_catalog t).map some,
             total + ((field_catalog t).map (fun z => z.length + 2)).sum,
             tr ++ (List.range' 2 t.ofields.length).map
               (fun i => Effect.alloc (.field_str i))) := by
  have harr : ((List.replicate (tdb_num_fields t + 1) (none : Option (List Char))).set 0
        (some "uuid".toList)).set 1 (some "timestamp".toList)
      = [some "uuid".toList, some "timestamp".toList] ++ List.replicate t.ofields.length none := by
    simp [tdb_num_fields, List.replicate_succ]
  have hn1 : tdb_num_fields t - 1 = t.ofields.length := by simp [tdb_num_fields]
  have hmap : t.ofields.map (fun z => some (c_string z)) = (field_catalog t).map some := by
    simp [field_catalog]
  have hsum : (t.ofields.map (fun z => (c_string z).length + 2)).sum
      = ((field_catalog t).map (fun z => z.length + 2)).sum := by
    simp only [field_catalog, List.map_map]; rfl
  rcases traildbConnect_names_cases host t t.ofields []
      [some "uuid".toList, some "timestamp".toList] total tr (by simp) (by simp)
    with h | ⟨k, arr, _, hfail, _⟩
  · rw [List.length_nil, hmap, hsum] at h
    rw [harr, hn1]; exact h
  · rw [halloc] at hfail; exact absurd hfail (by decide)

theorem intercalate_comma_length (names : List (List Char)) :
    ([','].intercalate names).length = (names.map List.length).sum + (names.length - 1) := by
  have hsum : ∀ l : List (List Char),
      (l.map (fun z => z.length + 1)).sum = (l.map List.length).sum + l.length := by
    intro l
    induction l with
    | nil => rfl
    | cons a l ih => simp only [List.map_cons, List.sum_cons, List.length_cons, ih]; omega
  cases names with
  | nil => simp [List.intercalate]
  | cons z rest =>
    rw [intercalate_comma_cons, List.length_append, flatMap_comma_length, hsum]
    simp only [List.map_cons, List.sum_cons, List.length_cons]; omega

theorem close_count_nil : close_count [] = 0 := rfl

theorem close_count_alloc (o : Obj) (l : List Effect) :
    close_count (.alloc o :: l) = close_count l := rfl

theorem close_count_free (o : Obj) (l : List Effect) :
    close_count (.free o :: l) = close_count l := rfl

theorem close_count_declare (x : List Char) (l : List Effect) :
    close_count (.declare_vtab x :: l) = close_count l := rfl

theorem close_count_close (l : List Effect) :
    close_count (.tdb_close :: l) = close_count l + 1 := rfl

theorem close_count_append (a b : List Effect) :
    close_count (a ++ b) = close_count a + close_count b := by
  simp [close_count, List.filter_append]

theorem close_count_eq_zero (l : List Effect) (h : Effect.tdb_close ∉ l) : close_count l = 0 := by
  induction l with
  | nil => rfl
  | cons e l ih =>
    have hl := ih (fun hm => h (List.mem_cons_of_mem _ hm))
    cases e with
    | tdb_close => exact absurd (List.mem_cons_self _ _) h
    | _ => simpa [close_count] using hl

theorem close_count_free_field_strs (arr : List (Option (List Char))) :
    close_count (free_field_strs arr) = 0 := by
  apply close_count_eq_zero
  intro he
  simp only [free_field_strs, List.mem_filterMap] at he
  obtain ⟨p, _, hp⟩ := he
  split at hp <;> simp at hp

theorem close_count_allocs (l : List Nat) :
    close_count (l.map (fun i => Effect.alloc (.field_str i))) = 0 := by
  apply close_count_eq_zero
  intro he
  simp at he

theorem traildbConnect_schema_closes (host : Host) (t : tdb) (tr : List Effect)
    (htr : close_count tr = 0) :
    ∃ r, traildbConnect_schema host t tr = .ret r ∧
      (r.rc ≠ SQLITE_OK → close_count r.trace = 1 ∧ r.vtabs = none) ∧
      (r.rc = SQLITE_OK →
        close_count r.trace = 0 ∧ r.vtabs = some { traildb_handle := some t }) := by
  have hnomem : SQLITE_NOMEM ≠ SQLITE_OK := by decide
  have harr : ((List.replicate (tdb_num_fields t + 1) (none : Option (List Char))).set 0
        (some "uuid".toList)).set 1 (some "timestamp".toList)
      = [some "uuid".toList, some "timestamp".toList] ++ List.replicate t.ofields.length none := by
    simp [tdb_num_fields, List.replicate_succ]
  have hn1 : tdb_num_fields t - 1 = t.ofields.length := by simp [tdb_num_fields]
  have hn2 : tdb_num_fields t + 1 - 2 = (field_catalog t).length := by
    simp [tdb_num_fields, field_catalog]
  have hmap : t.ofields.map (fun z => some (c_string z)) = (field_catalog t).map some := by
    simp [field_catalog]
  have hsum : (t.ofields.map (fun z => (c_string z).length + 2)).sum
      = ((field_catalog t).map (fun z => z.length + 2)).sum := by
    simp only [field_catalog, List.map_map]; rfl
  have hle := intercalate_comma_length_le (field_catalog t)
  have hconcat := traildbConnect_concat_ok (some "uuid".toList) (some "timestamp".toList)
    (field_catalog t) (0 + 6 + 11 + ((field_catalog t).map (fun z => z.length + 2)).sum)
    (by omega)
  have hread := read_c_string_padded ([','].intercalate (field_catalog t))
    (0 + 6 + 11 + ((field_catalog t).map (fun z => z.length + 2)).sum
      - ([','].intercalate (field_catalog t)).length)
    (not_nul_mem_intercalate _ (by
      intro z hz
      simp only [field_catalog, List.mem_map] at hz
      obtain ⟨y, _, rfl⟩ := hz
      exact not_nul_mem_c_string y)) (by omega)
  unfold traildbConnect_schema
  by_cases h1 : host.alloc_ok .fields_str = true
  swap
  · simp only [Bool.not_eq_true] at h1
    simp only [h1, Bool.not_false, if_true]
    refine ⟨_, rfl, fun _ => ⟨?_, rfl⟩, fun h => absurd h hnomem⟩
    simp only [close_count_append, close_count_close, close_count_nil, htr]
  by_cases h2 : host.alloc_ok (.field_str 0) = true
  swap
  · simp only [Bool.not_eq_true] at h2
    simp only [h1, h2, Bool.not_true, Bool.not_false, Bool.false_eq_true, if_false, if_true]
    refine ⟨_, rfl, fun _ => ⟨?_, rfl⟩, fun h => absurd h hnomem⟩
    simp only [close_count_append, close_count_close, close_count_alloc, close_count_free,
      close_count_nil, htr]
  by_cases h3 : host.alloc_ok (.field_str 1) = true
  swap
  · simp only [Bool.not_eq_true] at h3
    simp only [h1, h2, h3, Bool.not_true, Bool.not_false, Bool.false_eq_true, if_false, if_true]
    refine ⟨_, rfl, fun _ => ⟨?_, rfl⟩, fun h => absurd h hnomem⟩
    simp only [close_count_append, close_count_close, close_count_alloc, close_count_free,
      close_count_nil, htr]
  simp only [h1, h2, h3, Bool.not_true, Bool.false_eq_true, if_false, harr, hn1]
  rcases traildbConnect_names_cases host t t.ofields []
      [some "uuid".toList, some "timestamp".toList] (0 + 6 + 11)
      (tr ++ [.alloc .fields_str] ++ [.alloc (.field_str 0)] ++ [.alloc (.field_str 1)])
      (by simp) (by simp)
    with hok | ⟨k, arr, _, _, herr⟩
  swap
  · rw [List.length_nil] at herr
    simp only [herr]
    refine ⟨_, rfl, fun _ => ⟨?_, rfl⟩, fun h => absurd h hnomem⟩
    simp only [close_count_append, close_count_close, close_count_alloc, close_count_free,
      close_count_nil, close_count_allocs, close_count_free_field_strs, htr]
  rw [List.length_nil, hmap, hsum] at hok
  simp only [hok]
  by_cases h4 : host.alloc_ok .concatfields = true
  swap
  · simp only [Bool.not_eq_true] at h4
    simp only [h4, Bool.not_false, if_true]
    refine ⟨_, rfl, fun _ => ⟨?_, rfl⟩, fun h => absurd h hnomem⟩
    simp only [close_count_append, close_count_close, close_count_alloc, close_count_free,
      close_count_nil, close_count_allocs, close_count_free_field_strs, htr]
  simp only [h4, Bool.not_true, Bool.false_eq_true, if_false, hn2, hconcat, hread]
  by_cases h5 : host.alloc_ok .traildb_fields = true
  swap
  · simp only [Bool.not_eq_true] at h5
    simp only [h5, Bool.not_false, if_true]
    refine ⟨_, rfl, fun _ => ⟨?_, rfl⟩, fun h => absurd h hnomem⟩
    simp only [close_count_append, close_count_close, close_count_alloc, close_count_free,
      close_count_nil, close_count_allocs, close_count_free_field_strs, htr]
  simp only [h5, Bool.not_true, Bool.false_eq_true, if_false]
  by_cases h6 : host.declare_rc ("CREATE TABLE t( uuid TEXT, timestamp INTEGER, ".toList
      ++ [','].intercalate (field_catalog t) ++ " );".toList) = SQLITE_OK
  swap
  · rw [if_pos h6]
    refine ⟨_, rfl, fun _ => ⟨?_, rfl⟩, fun h => absurd h h6⟩
    simp only [close_count_append, close_count_close, close_count_alloc, close_count_free,
      close_count_declare, close_count_nil, close_count_allocs, close_count_free_field_strs,
      htr]
  rw [if_neg (not_not.2 h6)]
  by_cases h7 : host.alloc_ok .svt = true
  swap
  · simp only [Bool.not_eq_true] at h7
    simp only [h7, Bool.not_false, if_true]
    refine ⟨_, rfl, fun _ => ⟨?_, rfl⟩, fun h => absurd h hnomem⟩
    simp only [close_count_append, close_count_close, close_count_alloc, close_count_free,
      close_count_declare, close_count_nil, close_count_allocs, close_count_free_field_strs,
      htr]
  simp only [h7, Bool.not_true, Bool.false_eq_true, if_false]
  refine ⟨_, rfl, fun h => absurd rfl h, fun _ => ⟨?_, rfl⟩⟩
  simp only [close_count_append, close_count_close, close_count_alloc, close_count_free,
    close_count_declare, close_count_nil, close_count_allocs, close_count_free_field_strs,
    htr]

theorem length_le_esc (q : Char) (body : List Char) :
    body.length ≤ (esc q body).length := by
  induction body with
  | nil => simp [esc]
  | cons c body ih =>
    have h1 : 1 ≤ (if c = q then [c, c] else [c]).length := by split <;> simp
    have h2 : esc q (c :: body) = (if c = q then [c, c] else [c]) ++ esc q body := by
      simp only [esc, List.flatMap_cons]
    rw [h2, List.length_append, List.length_cons]
    omega

theorem fileDequote_loop_length (q : Char) :
    ∀ (fuel : Nat) (zIn : List Char) (iIn iOut : Nat) (buf : List Char) (n : Nat),
      fileDequote_loop q fuel zIn iIn iOut = .ret (buf, n) → buf.length = zIn.length := by
  intro fuel
  induction fuel with
  | zero => intro zIn iIn iOut buf n h; simp [fileDequote_loop] at h
  | succ fuel ih =>
    intro zIn iIn iOut buf n h
    simp only [fileDequote_loop] at h
    split at h
    · simp at h
    · split at h
      · split at h
        · simp at h
        · split at h
          · simp only [Run.ret.injEq, Prod.mk.injEq] at h
            rw [← h.1]
          · split at h
            · have := ih _ _ _ _ _ h
              simpa using this
            · simp at h
      · split at h
        · have := ih _ _ _ _ _ h
          simpa using this
        · simp at h

theorem fileDequote_length (fuel : Nat) (zIn buf : List Char)
    (h : fileDequote fuel zIn = .ret buf) : buf.length = zIn.length := by
  simp only [fileDequote] at h
  split at h
  · simp at h
  · split at h
    · split at h
      · rename_i b n hloop
        have hl := fileDequote_loop_length _ _ _ _ _ _ _ hloop
        split at h
        · simp only [Run.ret.injEq] at h
          rw [← h, List.length_set, hl]
        · simp at h
      · simp at h
      · simp at h
    · simp only [Run.ret.injEq] at h
      rw [h]

/-! ## Connecting, opening and advancing: claims C11 to C19 -/

/-- C11: when the argument count is not exactly 4, `traildbConnect` returns
`SQLITE_ERROR`, a non-OK status, with `*err` set to the result of
`sqlite3_mprintf` on the text `traildb requires one argument exactly` (that
text whenever the formatting call finds memory), stores no table handle, and
calls neither `tdb_init` nor `tdb_open`. -/
theorem traildbConnect_wrong_argument_count (host : Host) (fuel : Nat) (argc : Int)
    (argv : List (List Char)) (h : argc ≠ 4) :
    ∃ r, traildbConnect host fuel argc argv = .ret r ∧ r.rc = SQLITE_ERROR ∧
      r.rc ≠ SQLITE_OK ∧
      r.err = mprintf_err host "traildb requires one argument exactly".toList ∧
      (host.alloc_ok .err_msg = true →
        r.err = some "traildb requires one argument exactly".toList) ∧
      r.vtabs = none ∧ Effect.tdb_init ∉ r.trace ∧ (∀ path, Effect.tdb_open path ∉ r.trace) := by
  have hg : argc < 4 ∨ argc > 4 := by omega
  refine ⟨{ rc := SQLITE_ERROR,
            err := mprintf_err host "traildb requires one argument exactly".toList,
            vtabs := none, trace := mprintf_err_effect host }, ?_, rfl,
    (by show SQLITE_ERROR ≠ SQLITE_OK; decide), rfl, ?_, rfl, ?_, ?_⟩
  · simp only [traildbConnect, traildbConnect_open, hg, if_true]
  · intro hok
    simp only [mprintf_err, hok, if_true]
  · simp only [mprintf_err_effect]
    split <;> simp
  · intro path
    simp only [mprintf_err_effect]
    split <;> simp

/-- Witness of C11: no location argument (three arguments) and two location
arguments (five arguments). -/
theorem traildbConnect_wrong_argument_count_witness :
    (((3 : Int) ≠ 4) ∧
      ∃ r, traildbConnect (good_host example_store) 1 3
          ["traildb".toList, "main".toList, "t".toList] = .ret r ∧ r.rc = SQLITE_ERROR ∧
        r.rc ≠ SQLITE_OK ∧
        r.err = mprintf_err (good_host example_store)
          "traildb requires one argument exactly".toList ∧
        ((good_host example_store).alloc_ok .err_msg = true →
          r.err = some "traildb requires one argument exactly".toList) ∧
        r.vtabs = none ∧ Effect.tdb_init ∉ r.trace ∧
        (∀ path, Effect.tdb_open path ∉ r.trace)) ∧
    (((5 : Int) ≠ 4) ∧
      ∃ r, traildbConnect (good_host example_store) 1 5
          (example_argv ++ ["./other".toList]) = .ret r ∧ r.rc = SQLITE_ERROR ∧
        r.rc ≠ SQLITE_OK ∧
        r.err = mprintf_err (good_host example_store)
          "traildb requires one argument exactly".toList ∧
        ((good_host example_store).alloc_ok .err_msg = true →
          r.err = some "traildb requires one argument exactly".toList) ∧
        r.vtabs = none ∧ Effect.tdb_init ∉ r.trace ∧
        (∀ path, Effect.tdb_open path ∉ r.trace)) :=
  ⟨⟨by decide, traildbConnect_wrong_argument_count (good_host example_store) 1 3
      ["traildb".toList, "main".toList, "t".toList] (by decide)⟩,
   ⟨by decide, traildbConnect_wrong_argument_count (good_host example_store) 1 5
      (example_argv ++ ["./other".toList]) (by decide)⟩⟩

/-- C12: whatever the outcomes of the allocations, of the formatted strings
and of `sqlite3_declare_vtab`, once `tdb_open` has succeeded on the store `t`
(lines 190-221), `traildbConnect` returns; if its status is not `SQLITE_OK`,
`tdb_close` was called exactly once and `*vtabs` was not stored; if its status
is `SQLITE_OK`, `tdb_close` was not called and `*vtabs` is a table handle whose
`traildb_handle` is `t`. -/
theorem traildbConnect_closes_store_on_failure (host : Host) (fuel : Nat) (argc : Int)
    (argv : List (List Char)) (t : tdb) (tr : List Effect)
    (hopen : traildbConnect_open host fuel argc argv = .ret (.inr (t, tr))) :
    ∃ r, traildbConnect host fuel argc argv = .ret r ∧
      (r.rc ≠ SQLITE_OK → close_count r.trace = 1 ∧ r.vtabs = none) ∧
      (r.rc = SQLITE_OK →
        close_count r.trace = 0 ∧ r.vtabs = some { traildb_handle := some t }) := by
  obtain ⟨path, _, htr⟩ := traildbConnect_open_trace host fuel argc argv t tr hopen
  obtain ⟨r, hr, h1, h2⟩ := traildbConnect_schema_closes host t tr (by rw [htr]; rfl)
  exact ⟨r, by simp only [traildbConnect, hopen, hr], h1, h2⟩

/-- Witness of C12: a connect where the allocation of `concatfields` fails
(the store is closed once) and one where nothing fails (the handle holds the
store). -/
theorem traildbConnect_closes_store_on_failure_witness :
    (traildbConnect_open (concat_failing_host example_store) 1 4 example_argv
        = .ret (.inr (example_store,
            [.tdb_init, .alloc .fname, .tdb_open "./store".toList, .free .fname])) ∧
      ∃ r, traildbConnect (concat_failing_host example_store) 1 4 example_argv = .ret r ∧
        (r.rc ≠ SQLITE_OK → close_count r.trace = 1 ∧ r.vtabs = none) ∧
        (r.rc = SQLITE_OK →
          close_count r.trace = 0 ∧ r.vtabs = some { traildb_handle := some example_store })) ∧
    (traildbConnect_open (good_host example_store) 1 4 example_argv
        = .ret (.inr (example_store,
            [.tdb_init, .alloc .fname, .tdb_open "./store".toList, .free .fname])) ∧
      ∃ r, traildbConnect (good_host example_store) 1 4 example_argv = .ret r ∧
        (r.rc ≠ SQLITE_OK → close_count r.trace = 1 ∧ r.vtabs = none) ∧
        (r.rc = SQLITE_OK →
          close_count r.trace = 0 ∧ r.vtabs = some { traildb_handle := some example_store })) ∧
    (match traildbConnect (concat_failing_host example_store) 1 4 example_argv with
      | .ret r => some (r.rc, close_count r.trace)
      | _ => none) = some (SQLITE_NOMEM, 1) ∧
    (match traildbConnect (good_host example_store) 1 4 example_argv with
      | .ret r => some (r.rc, close_count r.trace)
      | _ => none) = some (SQLITE_OK, 0) :=
  ⟨⟨rfl, traildbConnect_closes_store_on_failure (concat_failing_host example_store) 1 4
      example_argv example_store
      [.tdb_init, .alloc .fname, .tdb_open "./store".toList, .free .fname] rfl⟩,
   ⟨rfl, traildbConnect_closes_store_on_failure (good_host example_store) 1 4
      example_argv example_store
      [.tdb_init, .alloc .fname, .tdb_open "./store".toList, .free .fname] rfl⟩,
   by decide, by decide⟩

/-- C13, the code at the failing input: on the store with catalog a, b, when
only the allocation of `concatfields` fails, `traildbConnect` returns
`SQLITE_NOMEM` having released the four name strings once each and closed the
store, but never the array `traildb_fields_str`, which is still live. -/
theorem traildbConnect_concat_failure_leaks_array :
    (match traildbConnect (concat_failing_host example_store) 1 4 example_argv with
      | .ret r => some (r.rc, r.trace)
      | _ => none)
      = some (SQLITE_NOMEM,
          [.tdb_init, .alloc .fname, .tdb_open "./store".toList, .free .fname,
           .alloc .fields_str, .alloc (.field_str 0), .alloc (.field_str 1),
           .alloc (.field_str 2), .alloc (.field_str 3),
           .free (.field_str 0), .free (.field_str 1), .free (.field_str 2),
           .free (.field_str 3), .tdb_close]) ∧
    (match traildbConnect (concat_failing_host example_store) 1 4 example_argv with
      | .ret r => some (live r.trace, free_count .fields_str r.trace)
      | _ => none) = some ([.fields_str], 0) :=
  ⟨by decide, by decide⟩

/-- C14, the code at the failing input: on a store with trails where
`tdb_get_trail` fails for trail 0, `traildbOpenCursor` (both allocations
succeeding) returns `SQLITE_NOMEM` with a null `*cur`, having released the
cursor structure but not the store-side cursor of `tdb_cursor_new`, which is
still live. -/
theorem traildbOpenCursor_positioning_failure_leaks_cursor :
    traildbOpenCursor failing_trail_store true true = (SQLITE_NOMEM, none) ∧
    traildbOpenCursor_effects failing_trail_store true true
      = [.alloc .scur, .alloc .cursor, .free .scur] ∧
    live (traildbOpenCursor_effects failing_trail_store true true) = [.cursor] ∧
    free_count .cursor (traildbOpenCursor_effects failing_trail_store true true) = 0 :=
  ⟨by decide, by decide, by decide, by decide⟩

/-- C15, the code at the failing input: on the store of two one-event trails,
after open, `traildbFilter`, `traildbNext`, `traildbFilter` (all returning
`SQLITE_OK`) the cursor is not at eof, its `trail_id` is 1 and its current event
is the event with timestamp 10, which is the event of trail 0 and no event of
trail 1. -/
theorem refilter_breaks_cursor_invariant :
    (open_and_run two_trail_store 5 [.filter, .next, .filter]).map
        (fun c => (traildbEof c, c.trail_id, c.event))
      = some (0, 1, some ⟨10, []⟩) ∧
    two_trail_store.trails.get? 1 = some [⟨20, []⟩] ∧
    (⟨10, []⟩ : tdb_event) ∉ [(⟨20, []⟩ : tdb_event)] ∧
    two_trail_store.trails.get? 0 = some [⟨10, []⟩] :=
  ⟨by decide, by decide, by decide, by decide⟩

/-- C16, the code at the failing inputs: with fresh memory holding the letter x,
the unquoted argument `./store` is copied without its terminator, the buffer
holds `./storex` with no NUL, and reading the path for `tdb_open` runs off the
buffer; with fresh memory holding a double quote, the double-quoted `./store`
makes `fileDequote` itself run off the buffer.  With fresh memory zero the path
passed to `tdb_open` is `./store` in both cases. -/
theorem traildbConnect_copy_not_terminated :
    (match traildbConnect_open (dirty_host example_store) 1 4 example_argv with
      | .fault => true
      | _ => false) = true ∧
    read_c_string (c_string "./store".toList ++ [(dirty_host example_store).fresh]) = none ∧
    (match traildbConnect_open { good_host example_store with fresh := DQUOTE } 20 4
        ["traildb".toList, "main".toList, "t".toList, DQUOTE :: "./store".toList ++ [DQUOTE]] with
      | .fault => true
      | _ => false) = true ∧
    (match traildbConnect_open (good_host example_store) 1 4 example_argv with
      | .ret (.inr (_, tr)) => some tr
      | _ => none)
      = some [.tdb_init, .alloc .fname, .tdb_open "./store".toList, .free .fname] ∧
    (match traildbConnect_open (good_host example_store) 20 4
        ["traildb".toList, "main".toList, "t".toList, DQUOTE :: "./store".toList ++ [DQUOTE]] with
      | .ret (.inr (_, tr)) => some tr
      | _ => none)
      = some [.tdb_init, .alloc .fname, .tdb_open "./store".toList, .free .fname] :=
  ⟨by decide, by decide, by decide, by decide, by decide⟩

/-- C17: for every store and field catalog, the per-field strings being
allocated, the first pass of `traildbConnect` ends with the size
`total_length_of_fields` and the second pass, run on the zero-filled buffer of
that size, returns without any access outside the buffer, having written
`concat_cursor` bytes: the sum of the name lengths plus F-1 commas (none for
F = 0), strictly fewer than the size.  The buffer still has the size it was
allocated with, holds NUL at index `concat_cursor`, and read as a C string it is
the comma-joined catalog. -/
theorem traildbConnect_concat_within_total (host : Host) (t : tdb) (tr : List Effect)
    (halloc : ∀ i, host.alloc_ok (.field_str i) = true) :
    ∃ arr total tr1 buf written,
      traildbConnect_names host t (tdb_num_fields t - 1) 0
          (((List.replicate (tdb_num_fields t + 1) (none : Option (List Char))).set 0
            (some "uuid".toList)).set 1 (some "timestamp".toList)) (0 + 6 + 11) tr
        = .ok (arr, total, tr1) ∧
      traildbConnect_concat arr (tdb_num_fields t + 1 - 2) 2 (List.replicate total NUL) 0
        = .ret (buf, written) ∧
      written = ((field_catalog t).map List.length).sum + ((field_catalog t).length - 1) ∧
      written < total ∧ buf.length = total ∧ buf.get? written = some NUL ∧
      read_c_string buf = some ([','].intercalate (field_catalog t)) := by
  have hnames := traildbConnect_names_of_strings_ok host t halloc (0 + 6 + 11) tr
  have hle := intercalate_comma_length_le (field_catalog t)
  have hlen := intercalate_comma_length (field_catalog t)
  have hn2 : tdb_num_fields t + 1 - 2 = (field_catalog t).length := by
    simp [tdb_num_fields, field_catalog]
  have hconcat := traildbConnect_concat_ok (some "uuid".toList) (some "timestamp".toList)
    (field_catalog t) (0 + 6 + 11 + ((field_catalog t).map (fun z => z.length + 2)).sum)
    (by omega)
  have hread := read_c_string_padded ([','].intercalate (field_catalog t))
    (0 + 6 + 11 + ((field_catalog t).map (fun z => z.length + 2)).sum
      - ([','].intercalate (field_catalog t)).length)
    (not_nul_mem_intercalate _ (by
      intro z hz
      simp only [field_catalog, List.mem_map] at hz
      obtain ⟨y, _, rfl⟩ := hz
      exact not_nul_mem_c_string y)) (by omega)
  refine ⟨[some "uuid".toList, some "timestamp".toList] ++ (field_catalog t).map some,
    0 + 6 + 11 + ((field_catalog t).map (fun z => z.length + 2)).sum,
    tr ++ (List.range' 2 t.ofields.length).map (fun i => Effect.alloc (.field_str i)),
    [','].intercalate (field_catalog t)
      ++ List.replicate (0 + 6 + 11 + ((field_catalog t).map (fun z => z.length + 2)).sum
          - ([','].intercalate (field_catalog t)).length) NUL,
    ([','].intercalate (field_catalog t)).length,
    hnames, by rw [hn2]; exact hconcat, hlen, by omega, ?_, ?_, hread⟩
  · simp only [List.length_append, List.length_replicate]; omega
  · obtain ⟨m, hm⟩ : ∃ m, 0 + 6 + 11 + ((field_catalog t).map (fun z => z.length + 2)).sum
        - ([','].intercalate (field_catalog t)).length = m + 1 :=
      ⟨0 + 6 + 11 + ((field_catalog t).map (fun z => z.length + 2)).sum
        - ([','].intercalate (field_catalog t)).length - 1, by omega⟩
    rw [hm, List.replicate_succ]
    exact get?_char_at_length _ NUL _

/-- Witness of C17 on the store with catalog a, b: 23 bytes allocated, 3 written. -/
theorem traildbConnect_concat_within_total_witness :
    (∀ i, (good_host example_store).alloc_ok (.field_str i) = true) ∧
    (0 + 6 + 11 + ((field_catalog example_store).map (fun z => z.length + 2)).sum = 23 ∧
      ((field_catalog example_store).map List.length).sum
        + ((field_catalog example_store).length - 1) = 3) ∧
    ∃ arr total tr1 buf written,
      traildbConnect_names (good_host example_store) example_store
          (tdb_num_fields example_store - 1) 0
          (((List.replicate (tdb_num_fields example_store + 1)
            (none : Option (List Char))).set 0
            (some "uuid".toList)).set 1 (some "timestamp".toList)) (0 + 6 + 11) []
        = .ok (arr, total, tr1) ∧
      traildbConnect_concat arr (tdb_num_fields example_store + 1 - 2) 2
          (List.replicate total NUL) 0
        = .ret (buf, written) ∧
      written = ((field_catalog example_store).map List.length).sum
        + ((field_catalog example_store).length - 1) ∧
      written < total ∧ buf.length = total ∧ buf.get? written = some NUL ∧
      read_c_string buf = some ([','].intercalate (field_catalog example_store)) :=
  ⟨fun _ => rfl, ⟨by decide, by decide⟩,
   traildbConnect_concat_within_total (good_host example_store) example_store []
     (fun _ => rfl)⟩

/-- C18 fails as stated: on the NUL-terminated string made of a double quote
and the letters a, b, c (no closing quote; the NUL is at index 4) `fileDequote`
given five or more iterations reads index 5, past the terminator and outside
the buffer; the first four iterations stay inside (with fuel 4 the loop is
still running), the fifth copies the NUL to index 3 and reads on. -/
theorem fileDequote_unclosed_quote_overruns :
    fileDequote 5 [DQUOTE, 'a', 'b', 'c', NUL] = .fault ∧
    fileDequote 1000 [DQUOTE, 'a', 'b', 'c', NUL] = .fault ∧
    fileDequote 4 [DQUOTE, 'a', 'b', 'c', NUL] = .timeout ∧
    fileDequote_loop DQUOTE 4 [DQUOTE, 'a', 'b', 'c', NUL] 1 0 = .timeout ∧
    ([DQUOTE, 'a', 'b', 'c', NUL] : List Char)[5]? = none :=
  ⟨by decide, by decide, by decide, by decide, by decide⟩

/-- C18 as amended: on the buffer that holds exactly a NUL-terminated string
`s` (the terminator is its last cell, so that any access past the terminator
leaves the buffer), when the string either does not begin with one of the four
delimiters, or is an opening delimiter, a body with the closing delimiter
doubled, the closing delimiter and a tail not beginning with it, `fileDequote`
given fuel for as many iterations as the string has characters returns
normally: no read or write is outside the buffer, and the buffer keeps its
length. -/
theorem fileDequote_closed_quote_in_bounds (s : List Char) (hs : NUL ∉ s) (fuel : Nat)
    (hfuel : s.length ≤ fuel)
    (h : (∀ q, (s ++ [NUL])[0]? = some q →
            q ≠ DQUOTE ∧ q ≠ SQUOTE ∧ q ≠ BTICK ∧ q ≠ LBRACKET) ∨
         (∃ q body r, (q = DQUOTE ∨ q = SQUOTE ∨ q = BTICK ∨ q = LBRACKET) ∧
            r.head? ≠ some (closing q) ∧
            s = q :: (esc (closing q) body ++ closing q :: r))) :
    c_string (s ++ [NUL]) = s ∧
    ∃ buf, fileDequote fuel (s ++ [NUL]) = .ret buf ∧ buf.length = (s ++ [NUL]).length := by
  refine ⟨c_string_append_nul s [] hs, ?_⟩
  rcases h with h | ⟨q, body, r, hq, hr, rfl⟩
  · obtain ⟨q, t, hqt⟩ : ∃ q t, s ++ [NUL] = q :: t := by
      cases s with
      | nil => exact ⟨NUL, [], rfl⟩
      | cons a s => exact ⟨a, s ++ [NUL], rfl⟩
    rw [hqt] at h ⊢
    obtain ⟨h1, h2, h3, h4⟩ := h q (by simp)
    exact ⟨q :: t, by
      simp only [fileDequote, List.getElem?_cons_zero, h1, h2, h3, h4, or_self, if_false], rfl⟩
  · have hnul : NUL ≠ closing q := by
      rcases hq with rfl | rfl | rfl | rfl <;> decide
    obtain ⟨d, rest, hd, hrest⟩ : ∃ d rest, d ≠ closing q ∧ r ++ [NUL] = d :: rest := by
      cases r with
      | nil => exact ⟨NUL, [], hnul, rfl⟩
      | cons a r => exact ⟨a, r ++ [NUL], fun h => hr (by rw [h]; rfl), rfl⟩
    have hesc := length_le_esc (closing q) body
    have hbody : body.length < fuel := by
      simp only [List.length_cons, List.length_append] at hfuel; omega
    obtain ⟨junk2, hj2, hrun⟩ :=
      fileDequote_loop_spec (closing q) d hd rest body [] [q] fuel (by simp) hbody
    obtain ⟨j, jr, rfl⟩ : ∃ j jr, junk2 = j :: jr := List.exists_cons_of_ne_nil hj2
    simp only [List.nil_append, List.length_nil, List.length_cons, Nat.zero_add,
      List.cons_append] at hrun
    have hlen : body.length < (body ++ j :: (jr ++ closing q :: d :: rest)).length := by
      simp only [List.length_append, List.length_cons]; omega
    have hcl : (if q = LBRACKET then RBRACKET else q) = closing q := rfl
    have happ : body ++ j :: jr ++ closing q :: d :: rest
        = body ++ j :: (jr ++ closing q :: d :: rest) := by
      simp only [List.append_assoc, List.cons_append]
    have hin : (q :: (esc (closing q) body ++ closing q :: r)) ++ [NUL]
        = q :: (esc (closing q) body ++ closing q :: d :: rest) := by
      simp only [List.cons_append, List.append_assoc, hrest]
    have hres : fileDequote fuel (q :: (esc (closing q) body ++ closing q :: d :: rest))
        = .ret (body ++ NUL :: (jr ++ closing q :: d :: rest)) := by
      simp only [fileDequote, List.getElem?_cons_zero, hq, if_true]
      rw [hcl, hrun]
      simp only [happ, hlen, if_true, set_at_length]
    rw [hin]
    exact ⟨_, hres, fileDequote_length _ _ _ hres⟩

/-- Witness of C18 as amended: the unquoted `./store` and the double-quoted
`./store`, each on a buffer ending at its terminator. -/
theorem fileDequote_closed_quote_in_bounds_witness :
    ((NUL ∉ "./store".toList ∧ "./store".toList.length ≤ 7 ∧
        (∀ q, ("./store".toList ++ [NUL])[0]? = some q →
          q ≠ DQUOTE ∧ q ≠ SQUOTE ∧ q ≠ BTICK ∧ q ≠ LBRACKET)) ∧
      c_string ("./store".toList ++ [NUL]) = "./store".toList ∧
      ∃ buf, fileDequote 7 ("./store".toList ++ [NUL]) = .ret buf ∧
        buf.length = ("./store".toList ++ [NUL]).length) ∧
    ((NUL ∉ DQUOTE :: "./store".toList ++ [DQUOTE] ∧
        (DQUOTE :: "./store".toList ++ [DQUOTE]).length ≤ 9 ∧
        DQUOTE :: "./store".toList ++ [DQUOTE]
          = DQUOTE :: (esc (closing DQUOTE) "./store".toList ++ closing DQUOTE :: [])) ∧
      c_string ((DQUOTE :: "./store".toList ++ [DQUOTE]) ++ [NUL])
        = DQUOTE :: "./store".toList ++ [DQUOTE] ∧
      ∃ buf, fileDequote 9 ((DQUOTE :: "./store".toList ++ [DQUOTE]) ++ [NUL]) = .ret buf ∧
        buf.length = ((DQUOTE :: "./store".toList ++ [DQUOTE]) ++ [NUL]).length) :=
  ⟨⟨⟨by decide, by decide, fun q hq => by cases hq; decide⟩,
    fileDequote_closed_quote_in_bounds "./store".toList (by decide) 7 (by decide)
      (Or.inl (fun q hq => by cases hq; decide))⟩,
   ⟨⟨by decide, by decide, by decide⟩,
    fileDequote_closed_quote_in_bounds (DQUOTE :: "./store".toList ++ [DQUOTE]) (by decide) 9
      (by decide)
      (Or.inr ⟨DQUOTE, "./store".toList, [], Or.inl rfl, by decide, by decide⟩)⟩⟩

/-- C19: for every store and every cursor state (`total_trails` a `uint64_t`
value), `traildbNext` returns once its fuel, one unit per iteration of the
do-while loop, reaches `total_trails - trail_id`; `total_trails` is unchanged,
and when it was called with `trail_id < total_trails` the `trail_id` has not
decreased and is at most `total_trails` on return.  Each pass through the loop
body either obtains an event and leaves `trail_id` alone, which ends the loop,
or obtains none and increases `trail_id` by exactly one. -/
theorem traildbNext_terminates (db : tdb) (scur : sqlite3_vtab_cursor_traildb)
    (hU : scur.total_trails < 2 ^ 64) (fuel : Nat)
    (hfuel : scur.total_trails - scur.trail_id ≤ fuel) :
    (∃ rc scur1, traildbNext db fuel scur = some (rc, scur1) ∧
      scur1.total_trails = scur.total_trails ∧
      (scur.trail_id < scur.total_trails →
        scur.trail_id ≤ scur1.trail_id ∧ scur1.trail_id ≤ scur1.total_trails)) ∧
    (∀ s : sqlite3_vtab_cursor_traildb, s.total_trails < 2 ^ 64 →
      s.trail_id < s.total_trails →
      match traildbNext_body db s with
      | .ok s1 => (s1.event ≠ none ∧ s1.trail_id = s.trail_id) ∨
          (s1.event = none ∧ s1.trail_id = s.trail_id + 1)
      | .error (_, s1) => s1.trail_id = s.trail_id + 1) := by
  constructor
  · by_cases hg : scur.empty_traildb = true ∨ scur.trail_id ≥ scur.total_trails
    · refine ⟨SQLITE_OK, scur, by simp only [traildbNext, hg, if_true], rfl, ?_⟩
      intro hlt
      exact ⟨Nat.le_refl _, Nat.le_of_lt hlt⟩
    · have hlt : scur.trail_id < scur.total_trails := by
        simp only [not_or, ge_iff_le, not_le] at hg; exact hg.2
      obtain ⟨rc, s1, hrun, h1, h2, h3⟩ := traildbNext_loop_terminates db fuel scur hU hlt hfuel
      exact ⟨rc, s1, by simp only [traildbNext, hg, if_false]; exact hrun, h1, fun _ => ⟨h2, h3⟩⟩
  · intro s hsU hslt
    have hstep := traildbNext_body_step db s hsU hslt
    cases hb : traildbNext_body db s with
    | error r =>
      obtain ⟨rc, s1⟩ := r
      rw [hb] at hstep
      exact hstep.2.2.1
    | ok s1 =>
      rw [hb] at hstep
      exact hstep.2

/-- Witness of C19 on the three-trail example store: a cursor on the empty
middle trail, given the two units of fuel `total_trails - trail_id`. -/
theorem traildbNext_terminates_witness :
    (((⟨[], none, false, 2, 1, 3⟩ : sqlite3_vtab_cursor_traildb).total_trails < 2 ^ 64 ∧
      (⟨[], none, false, 2, 1, 3⟩ : sqlite3_vtab_cursor_traildb).total_trails
        - (⟨[], none, false, 2, 1, 3⟩ : sqlite3_vtab_cursor_traildb).trail_id ≤ 2) ∧
      traildbNext example_store 2 ⟨[], none, false, 2, 1, 3⟩
        = some (SQLITE_OK, ⟨[], some ⟨12, [4, 5]⟩, false, 3, 2, 3⟩)) ∧
    ((∃ rc scur1, traildbNext example_store 2 ⟨[], none, false, 2, 1, 3⟩ = some (rc, scur1) ∧
      scur1.total_trails = (⟨[], none, false, 2, 1, 3⟩ : sqlite3_vtab_cursor_traildb).total_trails ∧
      ((⟨[], none, false, 2, 1, 3⟩ : sqlite3_vtab_cursor_traildb).trail_id
          < (⟨[], none, false, 2, 1, 3⟩ : sqlite3_vtab_cursor_traildb).total_trails →
        (⟨[], none, false, 2, 1, 3⟩ : sqlite3_vtab_cursor_traildb).trail_id ≤ scur1.trail_id ∧
        scur1.trail_id ≤ scur1.total_trails)) ∧
    (∀ s : sqlite3_vtab_cursor_traildb, s.total_trails < 2 ^ 64 →
      s.trail_id < s.total_trails →
      match traildbNext_body example_store s with
      | .ok s1 => (s1.event ≠ none ∧ s1.trail_id = s.trail_id) ∨
          (s1.event = none ∧ s1.trail_id = s.trail_id + 1)
      | .error (_, s1) => s1.trail_id = s.trail_id + 1)) :=
  ⟨⟨⟨by decide, by decide⟩, by decide⟩,
   traildbNext_terminates example_store ⟨[], none, false, 2, 1, 3⟩ (by decide) 2 (by decide)⟩

end Traildb
